import Mathlib

/-!
Shallow embedding of the aggregation core of `fin-table-prep`:

* `aggregering.py` — the aggregation engine (`apply_aggregeringer`,
  `apply_single_aggregering`, with its helpers `find_label_col` and
  `is_label_col`);
* `src/analysis/aggregation.py` — the aggregation detector
  (`detect_aggregation_patterns_v2`).

Modelling conventions:

* A pandas `DataFrame` is a list of column names plus a list of rows
  (each row a list of cell values aligned with the columns), together
  with an association list of column dtypes (consulted only by the
  measure auto-detection, which in the source inspects `df[c].dtype`).
* Cell values are `Value`: an exact integer, a string, or null (NaN).
  Numeric measures are modelled with exact integer arithmetic; the
  source uses pandas int64/float64 columns.
* Fallible pandas operations are modelled in `Except String`:
  `groupby` with an empty key list raises `ValueError`, and `.agg` /
  column selection on a missing column raises `KeyError`.
* pandas `groupby(..., sort=True)` (the default) orders group keys by
  sorting; we sort the distinct keys with a fixed total order on value
  tuples (integers by value, strings by code points, as pandas does on
  homogeneous key columns).  No theorem below depends on the relative
  order of rows inside a single roll-up block.
* Python `str.lower` is modelled ASCII-only (`Char.toLower`); the
  keyword lists and all column names relevant to the claims are
  unaffected by non-ASCII case folding.
* The high-cardinality test `nunique > len * 0.2` is modelled as the
  exact rational comparison `5 * nunique > len`; the float rounding of
  `0.2` can differ from this only when `nunique` is within one ulp of
  `len / 5`, which no claim exercises.
-/

namespace FinTablePrep

/-- A cell value: exact integer, string, or null (pandas NaN). -/
inductive Value where
  | num (n : Int)
  | str (s : String)
  | null
deriving DecidableEq, Repr

/-- Numeric reading of a cell, as used by pandas `sum` over a numeric
column with the default `skipna=True`: nulls contribute 0. -/
def Value.toInt : Value → Int
  | .num n => n
  | _ => 0

/-- A pandas DataFrame: named columns, rows of cells aligned with the
columns, and per-column dtype strings (association list; a column
absent from the list reads as dtype `"object"`). -/
structure DataFrame where
  cols : List String
  rows : List (List Value)
  dtypes : List (String × String)
deriving DecidableEq, Repr

/-- One aggregation descriptor, as the dict
`{'kolonne': …, 'total_verdi': …, 'total_label': …}` in
`aggregering.py` (the optional documentation field `type` plays no
role in the engine and is omitted). -/
structure Agg where
  kolonne : String
  total_verdi : Value
  total_label : Value
deriving DecidableEq, Repr

/-- Remove duplicates keeping the first occurrence of each element
(the order pandas `unique()` and `concat`'s column union use). -/
def dedupFirst [DecidableEq α] : List α → List α
  | [] => []
  | a :: as => a :: (dedupFirst as).filter (fun b => b ≠ a)

/-- First-match cell lookup: the value of column `c` in `row`, where
`cols` names the row's columns positionally (pandas `row[c]`).
Missing columns read as null. -/
def lookupCell : List String → List Value → String → Value
  | [], _, _ => Value.null
  | _ :: _, [], _ => Value.null
  | c0 :: cs, v0 :: vs, c => if c0 = c then v0 else lookupCell cs vs c

/-- The values of column `c`, top to bottom (pandas `df[c]`). -/
def getColumn (df : DataFrame) (c : String) : List Value :=
  df.rows.map (fun r => lookupCell df.cols r c)

/-- `df[c].sum()` over a numeric column (nulls count as 0). -/
def colSumInt (df : DataFrame) (c : String) : Int :=
  ((getColumn df c).map Value.toInt).sum

/-- Distinct non-null values of a column, in order of first occurrence
(pandas `df[c].unique()` restricted to non-null, as counted by
`nunique`). -/
def distinctValues (df : DataFrame) (c : String) : List Value :=
  dedupFirst ((getColumn df c).filter (fun v => v ≠ Value.null))

/-- pandas `df[c].nunique()`: number of distinct non-null values. -/
def nunique (df : DataFrame) (c : String) : Nat :=
  (distinctValues df c).length

/-! ### Python string helpers (modelled on character lists) -/

/-- Bool test: `pat` is a prefix of `l` (character-by-character). -/
def listPrefixB : List Char → List Char → Bool
  | [], _ => true
  | _ :: _, [] => false
  | a :: as, b :: bs => a = b && listPrefixB as bs

/-- Bool test: `pat` occurs as a contiguous run inside `l`
(Python `pat in s`). -/
def listInfixB (pat : List Char) : List Char → Bool
  | [] => pat.isEmpty
  | b :: bs => listPrefixB pat (b :: bs) || listInfixB pat bs

/-- Python `pat in s` on strings. -/
def strContains (s pat : String) : Bool :=
  listInfixB pat.toList s.toList

/-- Python `s.endswith(pat)`. -/
def strEndsWith (s pat : String) : Bool :=
  listPrefixB pat.toList.reverse s.toList.reverse

/-- Python `s.lower()` (ASCII case folding). -/
def strLower (s : String) : String :=
  String.mk (s.toList.map Char.toLower)

/-- Python string `<` (lexicographic over code points). -/
def strLtB : List Char → List Char → Bool
  | [], [] => false
  | [], _ :: _ => true
  | _ :: _, [] => false
  | a :: as, b :: bs => a < b || (a = b && strLtB as bs)

/-- Python string `<=`. -/
def strLeB (a b : String) : Bool :=
  a = b || strLtB a.toList b.toList

/-- Python `sorted` on a list of strings. -/
def sortStrings (l : List String) : List String :=
  List.insertionSort (fun a b => strLeB a b = true) l

/-! ### `aggregering.py`: label-column helpers -/

/-- `find_label_col` (aggregering.py lines 99–112): try the patterns
`<col>.1`, `<col>_fmt`, `<col>_label`, `<col>_navn`, `<col>_name` in
that order against the table's columns; first hit wins. -/
def find_label_col (base_col : String) (columns : List String) : Option String :=
  let patterns := [base_col ++ ".1", base_col ++ "_fmt", base_col ++ "_label",
                   base_col ++ "_navn", base_col ++ "_name"]
  patterns.find? (fun p => columns.contains p)

/-- `is_label_col` (aggregering.py lines 115–118): a column counts as a
label column iff its name ends in one of the label suffixes.  (The
source function also receives the table's column list but never uses
it.) -/
def is_label_col (col : String) : Bool :=
  [".1", "_fmt", "_label", "_navn", "_name"].any (fun s => strEndsWith col s)

/-! ### `aggregering.py`: measure auto-detection (lines 50–93) -/

/-- `value_keywords` (aggregering.py lines 58–62). -/
def value_keywords : List String :=
  ["antall", "count", "value", "verdi", "beløp", "sum", "total",
   "inntekt", "utgift", "pris", "kr", "prosent", "andel", "rate",
   "kostnad", "lønn", "skatt", "avgift", "bestand", "saldo"]

/-- `dimension_keywords` (aggregering.py lines 65–70). -/
def dimension_keywords : List String :=
  ["år", "aar", "year", "dato", "date", "tid", "time",
   "id", "kode", "code", "nr", "nummer", "number",
   "alder", "age", "måned", "month", "dag", "day",
   "uke", "week", "kvartal", "quarter"]

/-- Numeric dtypes accepted by the auto-detection (line 77). -/
def numericDtypes : List String :=
  ["int64", "float64", "int32", "float32", "int16", "float16"]

/-- dtype of a column (`df[c].dtype`). -/
def dtypeOf (df : DataFrame) (c : String) : String :=
  (df.dtypes.lookup c).getD "object"

/-- The `dim_cols` set of the auto-detection (lines 52–55): every
descriptor's dimension column together with its `.1` variant. -/
def autoDimCols (aggs : List Agg) : List String :=
  aggs.foldl (fun acc a => acc ++ [a.kolonne, a.kolonne ++ ".1"]) []

/-- Body of the auto-detection loop (lines 72–93): decide whether
column `c` is appended to `value_cols`. -/
def isAutoValueCol (df : DataFrame) (dim_cols : List String) (c : String) : Bool :=
  if dim_cols.contains c || strEndsWith c ".1" then false
  else if numericDtypes.contains (dtypeOf df c) then
    let col_lower := strLower c
    let is_value_keyword := value_keywords.any (fun k => strContains col_lower k)
    let is_dimension_keyword := dimension_keywords.any (fun k => strContains col_lower k)
    if is_value_keyword && !is_dimension_keyword then true
    else if is_dimension_keyword then false
    else if 5 * nunique df c > df.rows.length then true
    else false
  else false

/-- Auto-detection of `value_cols` when the caller passes `None`
(aggregering.py lines 50–93). -/
def autoDetectValueCols (df : DataFrame) (aggs : List Agg) : List String :=
  df.cols.filter (fun c => isAutoValueCol df (autoDimCols aggs) c)

/-- The `value_cols` actually used by the engine: the caller's list if
given, otherwise the auto-detection. -/
def resolveValueCols (df : DataFrame) (aggs : List Agg) :
    Option (List String) → List String
  | some v => v
  | none => autoDetectValueCols df aggs

/-! ### `aggregering.py`: grouping and summation -/

/-- The key of a row under a list of grouping columns. -/
def rowKey (cols : List String) (group_cols : List String) (r : List Value) :
    List Value :=
  group_cols.map (fun g => lookupCell cols r g)

/-- Total order used to sort group keys, matching pandas' sorted group
output on homogeneous key columns (integers by value, strings by code
points; null sorts first, and the ordering between a number and a
string is fixed arbitrarily where pandas would raise). -/
def Value.leB : Value → Value → Bool
  | .null, _ => true
  | _, .null => false
  | .num a, .num b => a ≤ b
  | .num _, .str _ => true
  | .str _, .num _ => false
  | .str a, .str b => strLeB a b

/-- Lexicographic order on key tuples (pandas multi-key sort). -/
def keyLe : List Value → List Value → Bool
  | [], _ => true
  | _ :: _, [] => false
  | a :: as, b :: bs => if a = b then keyLe as bs else Value.leB a b

/-- The distinct row keys of `df` under `group_cols`, sorted
(pandas `groupby(group_cols, dropna=False)` group order). -/
def sortedKeys (df : DataFrame) (group_cols : List String) :
    List (List Value) :=
  List.insertionSort (fun a b => keyLe a b = true)
    (dedupFirst (df.rows.map (rowKey df.cols group_cols)))

/-- Sum of measure column `v` over the base rows whose key under
`group_cols` is `k`. -/
def groupSum (df : DataFrame) (group_cols : List String) (k : List Value)
    (v : String) : Int :=
  (((df.rows.filter (fun r => rowKey df.cols group_cols r = k)).map
    (fun r => (lookupCell df.cols r v).toInt)).sum)

/-- `df.groupby(group_cols, dropna=False).agg({v: 'sum' for v}).reset_index()`
(aggregering.py lines 96 and 137/170).  Empty key list raises pandas
`ValueError`; a measure column that is missing, or consumed as a group
key, raises `KeyError` in `.agg`. -/
def groupby_agg (df : DataFrame) (group_cols value_cols : List String) :
    Except String DataFrame :=
  if group_cols.isEmpty then .error "ValueError: No group keys passed!"
  else if value_cols.any
      (fun v => !(df.cols.contains v) || group_cols.contains v) then
    .error "KeyError: columns not available for aggregation"
  else .ok
    { cols := group_cols ++ value_cols
      dtypes := df.dtypes
      rows := (sortedKeys df group_cols).map (fun k =>
        k ++ value_cols.map (fun v => Value.num (groupSum df group_cols k v))) }

/-- `pd.DataFrame({col: [df_base[col].sum()] for col in value_cols})`
(aggregering.py line 168): one row of grand totals (zero rows when the
dict is empty); a missing column raises `KeyError`. -/
def sumFrame (df : DataFrame) (value_cols : List String) :
    Except String DataFrame :=
  if value_cols.any (fun v => !(df.cols.contains v)) then
    .error "KeyError: missing measure column"
  else .ok
    { cols := value_cols
      dtypes := df.dtypes
      rows := if value_cols.isEmpty then []
              else [value_cols.map (fun c => Value.num (colSumInt df c))] }

/-! ### `aggregering.py`: scalar column assignment -/

/-- Overwrite the (first) cell of column `c` with `v`
(row part of pandas `df[c] = v` when `c` already exists). -/
def setCell : List String → List Value → String → Value → List Value
  | [], r, _, _ => r
  | _ :: _, [], _, _ => []
  | c0 :: cs, v0 :: vs, c, v =>
      if c0 = c then v :: vs else v0 :: setCell cs vs c v

/-- Row part of pandas scalar column assignment `df[c] = v`: overwrite
an existing column in place, or append a new one. -/
def setColRow (cols : List String) (c : String) (v : Value)
    (r : List Value) : List Value :=
  if cols.contains c then setCell cols r c v else r ++ [v]

/-- pandas scalar column assignment `df[c] = v`. -/
def setCol (df : DataFrame) (c : String) (v : Value) : DataFrame :=
  { cols := if df.cols.contains c then df.cols else df.cols ++ [c]
    dtypes := df.dtypes
    rows := df.rows.map (setColRow df.cols c v) }

/-- The total-category overwrites applied to one combination result
(aggregering.py lines 172–177, and identically 138–142 for a single
descriptor): for each descriptor of the combination, assign
`total_verdi` to its dimension column, and `total_label` to its label
column when one resolves. -/
def setTotals (labels : String → Option String) (d0 : DataFrame)
    (combo : List Agg) : DataFrame :=
  combo.foldl (fun d a =>
    let d1 := setCol d a.kolonne a.total_verdi
    match labels a.kolonne with
    | some lbl => setCol d1 lbl a.total_label
    | none => d1) d0

/-! ### `aggregering.py`: the two roll-up branches -/

/-- Grouping columns for a given exclusion list (aggregering.py lines
134–135 and 162–163): every table column that is neither excluded nor
a label-suffixed column. -/
def groupColsOf (cols : List String) (exclude_cols : List String) :
    List String :=
  cols.filter (fun c => !(exclude_cols.contains c) && !(is_label_col c))

/-- The exclusion list of the single-dimension branch (lines 130–132):
the descriptor's column, the measure columns, and the descriptor's
label column when one resolves. -/
def singleExclude (df : DataFrame) (value_cols : List String) (a : Agg) :
    List String :=
  [a.kolonne] ++ value_cols ++ (find_label_col a.kolonne df.cols).toList

/-- Grouping columns of the single-dimension branch. -/
def singleGroupCols (df : DataFrame) (value_cols : List String) (a : Agg) :
    List String :=
  groupColsOf df.cols (singleExclude df value_cols a)

/-- One single-dimension roll-up (aggregering.py lines 123–144): group
the base table on `singleGroupCols`, sum the measure columns, then
overwrite the descriptor's dimension column with `total_verdi` and its
resolved label column (if any) with `total_label`.  Note there is no
empty-group-key guard in this branch: when every column is excluded,
the underlying `groupby` raises. -/
def singleRollup (df : DataFrame) (value_cols : List String) (a : Agg) :
    Except String DataFrame :=
  let label_col := find_label_col a.kolonne df.cols
  let group_cols := singleGroupCols df value_cols a
  match groupby_agg df group_cols value_cols with
  | .error e => .error e
  | .ok df_total =>
    let df_total := setCol df_total a.kolonne a.total_verdi
    .ok (match label_col with
         | some lbl => setCol df_total lbl a.total_label
         | none => df_total)

/-- The exclusion list of the cross-combination branch (lines 152–161):
the combination's dimension columns, their resolved label columns, and
the measure columns. -/
def crossExclude (df : DataFrame) (value_cols : List String)
    (combo : List Agg) : List String :=
  let agg_kolonner := combo.map (fun a => a.kolonne)
  let agg_label_cols :=
    agg_kolonner.filterMap (fun k => find_label_col k df.cols)
  agg_kolonner ++ agg_label_cols ++ value_cols

/-- Grouping columns of a cross combination. -/
def crossGroupCols (df : DataFrame) (value_cols : List String)
    (combo : List Agg) : List String :=
  groupColsOf df.cols (crossExclude df value_cols combo)

/-- One cross-combination roll-up (aggregering.py lines 150–179): group
the base table on `crossGroupCols` — or, when no grouping column is
left, take the grand total over the whole table — then apply the
total-category overwrites for every descriptor of the combination. -/
def crossRollup (df : DataFrame) (value_cols : List String)
    (combo : List Agg) : Except String DataFrame :=
  let group_cols := crossGroupCols df value_cols combo
  let base := if group_cols.isEmpty then sumFrame df value_cols
              else groupby_agg df group_cols value_cols
  match base with
  | .error e => .error e
  | .ok df_cross =>
    .ok (setTotals (fun k => find_label_col k df.cols) df_cross combo)

/-! ### `aggregering.py`: assembly -/

/-- `itertools.combinations(l, r)`: all `r`-element sublists of `l`,
in lexicographic order of original positions. -/
def combinations : Nat → List α → List (List α)
  | 0, _ => [[]]
  | _ + 1, [] => []
  | r + 1, x :: xs =>
      (combinations r xs).map (fun c => x :: c) ++ combinations (r + 1) xs

/-- Effectful map in `Except`, modelling a Python loop that appends one
result per element and lets exceptions propagate. -/
def mapME (f : α → Except String β) : List α → Except String (List β)
  | [] => .ok []
  | a :: as =>
    match f a with
    | .error e => .error e
    | .ok b =>
      match mapME f as with
      | .error e => .error e
      | .ok bs => .ok (b :: bs)

/-- `pd.concat(dfs, ignore_index=True)`: columns are the union in order
of first appearance; each row is reindexed to the full column list,
reading null for columns its frame lacks. -/
def concatDF (dfs : List DataFrame) : DataFrame :=
  let allCols := dedupFirst (dfs.foldl (fun acc d => acc ++ d.cols) [])
  { cols := allCols
    dtypes := match dfs with | [] => [] | d :: _ => d.dtypes
    rows := dfs.foldr (fun d acc =>
      d.rows.map (fun r => allCols.map (fun c => lookupCell d.cols r c)) ++ acc) [] }

/-- The subset sizes enumerated by the cross loop
(`for r in range(2, len(aggregeringer) + 1)`).  The source guards the
loop with `if len(aggregeringer) >= 2`, which is redundant: the range
is empty below 2, exactly as `n - 1 = 0` here (truncated
subtraction). -/
def crossSizes (n : Nat) : List Nat :=
  List.range' 2 (n - 1)

/-- `apply_aggregeringer` (aggregering.py lines 17–184): identity copy
on an empty plan; otherwise resolve the measure columns, build every
single-dimension roll-up from the base, then every cross combination
of two or more descriptors, and concatenate the base table with all
roll-up blocks in that order. -/
def apply_aggregeringer (df_base : DataFrame) (aggregeringer : List Agg)
    (value_cols? : Option (List String) := none) :
    Except String DataFrame :=
  if aggregeringer.isEmpty then .ok df_base
  else
    let value_cols := resolveValueCols df_base aggregeringer value_cols?
    match mapME (singleRollup df_base value_cols) aggregeringer with
    | .error e => .error e
    | .ok singles =>
      let combos := (crossSizes aggregeringer.length).flatMap
        (fun r => combinations r aggregeringer)
      match mapME (crossRollup df_base value_cols) combos with
      | .error e => .error e
      | .ok crosses =>
        .ok (concatDF (df_base :: (singles ++ crosses)))

/-- `apply_single_aggregering` (aggregering.py lines 187–207): wrap the
arguments into a one-element plan and call `apply_aggregeringer`. -/
def apply_single_aggregering (df_base : DataFrame) (kolonne : String)
    (total_verdi : Value) (total_label : Value)
    (value_cols? : Option (List String) := none) :
    Except String DataFrame :=
  apply_aggregeringer df_base
    [{ kolonne := kolonne, total_verdi := total_verdi,
       total_label := total_label }] value_cols?

/-! ### `src/analysis/aggregation.py`: the aggregation detector -/

/-- Python `str(v)` on a non-null cell value. -/
def valueToStr : Value → String
  | .num n => toString n
  | .str s => s
  | .null => ""

/-- `set(df[c].dropna().astype(str).unique())`, represented as a
duplicate-free list (first-occurrence order; consumers are
set-invariant). -/
def stringVals (df : DataFrame) (c : String) : List String :=
  dedupFirst (((getColumn df c).filter (fun v => v ≠ Value.null)).map valueToStr)

/-- One detector finding (the dict appended at
src/analysis/aggregation.py lines 99–107). -/
structure Finding where
  column : String
  input_column : String
  new_values : List String
  type : String
  description : String
  input_values : List String
  output_values : List String
deriving DecidableEq, Repr

/-- The classification chain of the detector
(src/analysis/aggregation.py lines 74–97), applied once `new_vals` is
known to be non-empty: returns the aggregation type and its
description. -/
def classifyAgg (vals_in new_vals vals_out : List String)
    (col_out : String) : String × String :=
  let num_input := vals_in.length
  let num_new := new_vals.length
  if num_input = 2 ∧ num_new = 1 then
    ("binary_total", "Binær aggregering (2→3): Trolig \"Total/Begge\" kategori")
  else if (new_vals.all (fun v => v.length ≤ 3)) ∧
          (vals_in.all (fun v => 3 < v.length)) then
    ("geography_rollup", "Geografisk aggregering: Detaljert nivå → Totalnivå")
  else if 10 < num_input ∧ num_new < 5 then
    ("category_grouping",
     "Kategori-gruppering: " ++ toString num_input ++ " verdier → " ++
       toString vals_out.length ++ " (inkl. " ++ toString num_new ++
       " aggregerte)")
  else if strContains (strLower col_out) "kjønn" ∨
          strContains (strLower col_out) "kjonn" then
    ("gender", "Kjønnsaggregering (Begge kjønn)")
  else if ["geo", "bydel", "bosted", "arbeidssted"].any
      (fun g => strContains (strLower col_out) g) then
    ("geography", "Geografisk aggregering")
  else
    ("other", "Aggregering i " ++ col_out)

/-- Handling of one mapped column pair in the detector loop
(src/analysis/aggregation.py lines 49–107): `none` when the pair is
skipped or yields no new values, otherwise the appended finding. -/
def detectPair (df_input df_output : DataFrame) (col_in col_out : String) :
    Option Finding :=
  if strEndsWith col_in "_fmt" ∨ strContains col_out ".1" ∨
      strContains col_out ".2" then none
  else if ¬ (df_input.cols.contains col_in = true) ∨
      ¬ (df_output.cols.contains col_out = true) then none
  else if 50 < nunique df_output col_out then none
  else
    let vals_in := stringVals df_input col_in
    let vals_out := stringVals df_output col_out
    let new_vals := vals_out.filter (fun v => !(vals_in.contains v))
    if new_vals.isEmpty then none
    else
      let td := classifyAgg vals_in new_vals vals_out col_out
      some { column := col_out
             input_column := col_in
             new_values := sortStrings new_vals
             type := td.1
             description := td.2
             input_values := sortStrings vals_in
             output_values := sortStrings vals_out }

/-- `detect_aggregation_patterns_v2`
(src/analysis/aggregation.py lines 16–109): iterate the column mapping
in order and collect the findings (the source wraps this list in a
one-key result dict, which we elide). -/
def detect_aggregation_patterns_v2 (df_input df_output : DataFrame)
    (mappings : List (String × String)) : List Finding :=
  mappings.filterMap (fun p => detectPair df_input df_output p.1 p.2)

/-! ### Auxiliary predicates and spec-side definitions -/

/-- Row/column alignment invariant: every row has exactly one cell per
column. -/
def WF (df : DataFrame) : Prop :=
  ∀ r ∈ df.rows, r.length = df.cols.length

/-- All columns written by the total-category overwrites for a
combination: each descriptor's dimension column and its resolved label
column. -/
def touched (df : DataFrame) (combo : List Agg) : List String :=
  combo.flatMap (fun a => a.kolonne :: (find_label_col a.kolonne df.cols).toList)

/-- Grouping-column rule exactly as the spec states it (spec §4.2):
all table columns except the dimensions in S, each dimension's paired
label column, and the measure columns — and nothing else. -/
def specGroupCols (df : DataFrame) (value_cols : List String)
    (dims : List String) : List String :=
  df.cols.filter (fun c =>
    !(dims.contains c) &&
    !((dims.filterMap (fun d => find_label_col d df.cols)).contains c) &&
    !(value_cols.contains c))

/-- The grouping-column rule as the code actually implements it: the
spec's three exclusions plus every label-suffixed column. -/
def specGroupColsAmended (df : DataFrame) (value_cols : List String)
    (dims : List String) : List String :=
  df.cols.filter (fun c =>
    !(dims.contains c) &&
    !((dims.filterMap (fun d => find_label_col d df.cols)).contains c) &&
    !(value_cols.contains c) &&
    !(is_label_col c))

/-- The enumeration order of descriptor subsets stated by the spec:
subset sizes 1, 2, …, N in increasing order, and inside each size the
lexicographic order over original descriptor positions. -/
def specSubsetOrder (aggs : List Agg) : List (List Agg) :=
  (List.range aggs.length).flatMap (fun i => combinations (i + 1) aggs)

/-- The roll-up block the engine computes for a non-empty descriptor
subset: the single-dimension branch for singletons, the
cross-combination branch otherwise. -/
def rollupOf (df : DataFrame) (value_cols : List String) :
    List Agg → Except String DataFrame
  | [a] => singleRollup df value_cols a
  | s => crossRollup df value_cols s

/-- Measure-selection rule exactly as the claim states it: numeric
dtype, not a descriptor dimension column, not `.1`-suffixed, and
either a measure keyword without a dimension keyword, or no keyword at
all together with high cardinality. -/
def specMeasureSelected (df : DataFrame) (aggs : List Agg) (c : String) :
    Prop :=
  c ∈ df.cols ∧
  dtypeOf df c ∈ numericDtypes ∧
  (∀ a ∈ aggs, c ≠ a.kolonne) ∧
  strEndsWith c ".1" = false ∧
  ((value_keywords.any (fun k => strContains (strLower c) k) = true ∧
    dimension_keywords.any (fun k => strContains (strLower c) k) = false) ∨
   (value_keywords.any (fun k => strContains (strLower c) k) = false ∧
    dimension_keywords.any (fun k => strContains (strLower c) k) = false ∧
    5 * nunique df c > df.rows.length))

/-! ### Concrete tables used to instantiate the theorems -/

/-- Base table of the repository's own binary-aggregation unit test:
year, sex, and a count measure. -/
def dfYearSex : DataFrame :=
  { cols := ["år", "kjønn", "antall"]
    rows := [[Value.num 2024, Value.num 1, Value.num 100],
             [Value.num 2024, Value.num 2, Value.num 200]]
    dtypes := [("år", "int64"), ("kjønn", "int64"), ("antall", "int64")] }

/-- Descriptor rolling the sex dimension up to a "both sexes" code. -/
def aggSex : Agg :=
  { kolonne := "kjønn", total_verdi := Value.num 3,
    total_label := Value.str "Begge kjønn" }

/-- Descriptor rolling the district dimension up to a city total. -/
def aggBydel : Agg :=
  { kolonne := "bydel", total_verdi := Value.num 301,
    total_label := Value.str "Oslo i alt" }

/-- The single-dimension roll-up block the engine produces for
`dfYearSex` and `aggSex` (grouped on year, summed, sex overwritten
with the total code). -/
def blockYearSex : DataFrame :=
  { cols := ["år", "antall", "kjønn"]
    rows := [[Value.num 2024, Value.num 300, Value.num 3]]
    dtypes := [("år", "int64"), ("kjønn", "int64"), ("antall", "int64")] }

/-- Two-dimension base table (sex × district) with a count measure. -/
def dfSexBydel : DataFrame :=
  { cols := ["kjønn", "bydel", "antall"]
    rows := [[Value.num 1, Value.num 1, Value.num 100],
             [Value.num 2, Value.num 1, Value.num 150],
             [Value.num 1, Value.num 2, Value.num 200],
             [Value.num 2, Value.num 2, Value.num 250]]
    dtypes := [] }

/-- A table whose only non-measure column is label-suffixed: the code
excludes `region_navn` from grouping, the spec's grouping rule keeps
it. -/
def dfLabelOnly : DataFrame :=
  { cols := ["kjønn", "region_navn", "antall"]
    rows := [[Value.num 1, Value.str "Nord", Value.num 10],
             [Value.num 2, Value.str "Nord", Value.num 20]]
    dtypes := [] }

/-- A table with a single dimension and a measure: a single-descriptor
plan over it leaves zero grouping columns. -/
def dfNoGroup : DataFrame :=
  { cols := ["kjønn", "antall"]
    rows := [[Value.num 1, Value.num 10], [Value.num 2, Value.num 20]]
    dtypes := [] }

/-- A table without the column `borte` named by `aggBorte`. -/
def dfMissingDim : DataFrame :=
  { cols := ["geo", "antall"]
    rows := [[Value.num 1, Value.num 10], [Value.num 2, Value.num 20]]
    dtypes := [] }

/-- Descriptor naming a column absent from `dfMissingDim`. -/
def aggBorte : Agg :=
  { kolonne := "borte", total_verdi := Value.num 9,
    total_label := Value.str "Totalt" }

/-- A base table whose sex dimension carries a paired label column
`kjønn.1`. -/
def dfLabeled : DataFrame :=
  { cols := ["år", "kjønn", "kjønn.1", "antall"]
    rows := [[Value.num 2024, Value.num 1, Value.str "Mann", Value.num 100],
             [Value.num 2024, Value.num 2, Value.str "Kvinne", Value.num 200]]
    dtypes := [] }

/-- The roll-up block the engine produces for `dfLabeled` and `aggSex`:
the synthesized row carries the total code 3 and the total label. -/
def blockLabeled : DataFrame :=
  { cols := ["år", "antall", "kjønn", "kjønn.1"]
    rows := [[Value.num 2024, Value.num 300, Value.num 3,
              Value.str "Begge kjønn"]]
    dtypes := [] }

/-- The full engine output for `dfSexBydel` with the two descriptors
`aggSex` and `aggBydel`: 4 base rows, 2 + 2 single-dimension roll-up
rows, and 1 grand-total row. -/
def dfSexBydelResult : DataFrame :=
  { cols := ["kjønn", "bydel", "antall"]
    rows := [[Value.num 1, Value.num 1, Value.num 100],
             [Value.num 2, Value.num 1, Value.num 150],
             [Value.num 1, Value.num 2, Value.num 200],
             [Value.num 2, Value.num 2, Value.num 250],
             [Value.num 3, Value.num 1, Value.num 250],
             [Value.num 3, Value.num 2, Value.num 450],
             [Value.num 1, Value.num 301, Value.num 300],
             [Value.num 2, Value.num 301, Value.num 400],
             [Value.num 3, Value.num 301, Value.num 700]]
    dtypes := [] }

/-- Input side of the spec's binary-total detection example. -/
def dfSexIn : DataFrame :=
  { cols := ["sex"], rows := [[Value.str "Male"], [Value.str "Female"]]
    dtypes := [] }

/-- Output side of the spec's binary-total detection example. -/
def dfSexOut : DataFrame :=
  { cols := ["sex"]
    rows := [[Value.str "Male"], [Value.str "Female"], [Value.str "Both"]]
    dtypes := [] }

/-- Input side of the spec's geography-rollup detection example. -/
def dfGeoIn : DataFrame :=
  { cols := ["geo"]
    rows := [[Value.str "30101"], [Value.str "30102"], [Value.str "30103"]]
    dtypes := [] }

/-- Output side of the spec's geography-rollup detection example. -/
def dfGeoOut : DataFrame :=
  { cols := ["geo"]
    rows := [[Value.str "30101"], [Value.str "30102"], [Value.str "30103"],
             [Value.str "301"]]
    dtypes := [] }

/-! ### Basic lemmas: `dedupFirst`, `lookupCell`, `setCell` -/

theorem mem_dedupFirst [DecidableEq α] {a : α} {l : List α} :
    a ∈ dedupFirst l ↔ a ∈ l := by
  induction l with
  | nil => simp [dedupFirst]
  | cons x xs ih =>
    simp only [dedupFirst, List.mem_cons, List.mem_filter, ih]
    by_cases h : a = x <;> simp [h]

theorem nodup_dedupFirst [DecidableEq α] (l : List α) :
    (dedupFirst l).Nodup := by
  induction l with
  | nil => exact List.nodup_nil
  | cons x xs ih =>
    refine List.Nodup.cons ?_ (ih.filter _)
    intro hx
    have := (List.mem_filter.mp hx).2
    simp at this

theorem lookupCell_not_mem {cs : List String} {vs : List Value} {c : String}
    (h : c ∉ cs) : lookupCell cs vs c = Value.null := by
  induction cs generalizing vs with
  | nil => cases vs <;> rfl
  | cons c0 cs ih =>
    cases vs with
    | nil => rfl
    | cons v0 vs =>
      have hne : c0 ≠ c := fun he => h (he ▸ List.mem_cons_self _ _)
      simp only [lookupCell, if_neg hne]
      exact ih (fun hm => h (List.mem_cons_of_mem _ hm))

theorem lookupCell_append_left {cs ds : List String} {vs ws : List Value}
    {c : String} (hlen : cs.length = vs.length) (h : c ∈ cs) :
    lookupCell (cs ++ ds) (vs ++ ws) c = lookupCell cs vs c := by
  induction cs generalizing vs with
  | nil => simp at h
  | cons c0 cs ih =>
    cases vs with
    | nil => simp at hlen
    | cons v0 vs =>
      by_cases he : c0 = c
      · simp [lookupCell, he]
      · have hm : c ∈ cs := by
          rcases List.mem_cons.mp h with h1 | h1
          · exact absurd h1.symm he
          · exact h1
        simp only [List.cons_append, lookupCell, if_neg he]
        exact ih (by simpa using hlen) hm

theorem lookupCell_append_right {cs ds : List String} {vs ws : List Value}
    {c : String} (hlen : cs.length = vs.length) (h : c ∉ cs) :
    lookupCell (cs ++ ds) (vs ++ ws) c = lookupCell ds ws c := by
  induction cs generalizing vs with
  | nil =>
    cases vs with
    | nil => rfl
    | cons v0 vs => simp at hlen
  | cons c0 cs ih =>
    cases vs with
    | nil => simp at hlen
    | cons v0 vs =>
      have hne : c0 ≠ c := fun he => h (he ▸ List.mem_cons_self _ _)
      simp only [List.cons_append, lookupCell, if_neg hne]
      exact ih (by simpa using hlen) (fun hm => h (List.mem_cons_of_mem _ hm))

theorem lookupCell_map_self {cs : List String} {c : String}
    (f : String → Value) (h : c ∈ cs) :
    lookupCell cs (cs.map f) c = f c := by
  induction cs with
  | nil => simp at h
  | cons c0 cs ih =>
    by_cases he : c0 = c
    · simp [lookupCell, List.map_cons, he]
    · have hm : c ∈ cs := by
        rcases List.mem_cons.mp h with h1 | h1
        · exact absurd h1.symm he
        · exact h1
      simp only [List.map_cons, lookupCell, if_neg he]
      exact ih hm

theorem setCell_length (cs : List String) (vs : List Value) (c : String)
    (v : Value) : (setCell cs vs c v).length = vs.length := by
  induction cs generalizing vs with
  | nil => rfl
  | cons c0 cs ih =>
    cases vs with
    | nil => rfl
    | cons v0 vs =>
      simp only [setCell]
      by_cases he : c0 = c
      · simp [he]
      · simp [he, ih]

theorem lookupCell_setCell_self {cs : List String} {vs : List Value}
    {c : String} (v : Value) (hlen : cs.length = vs.length) (h : c ∈ cs) :
    lookupCell cs (setCell cs vs c v) c = v := by
  induction cs generalizing vs with
  | nil => simp at h
  | cons c0 cs ih =>
    cases vs with
    | nil => simp at hlen
    | cons v0 vs =>
      by_cases he : c0 = c
      · simp [setCell, lookupCell, he]
      · have hm : c ∈ cs := by
          rcases List.mem_cons.mp h with h1 | h1
          · exact absurd h1.symm he
          · exact h1
        simp only [setCell, if_neg he, lookupCell]
        exact ih (by simpa using hlen) hm

theorem lookupCell_setCell_ne {cs : List String} {vs : List Value}
    {c c2 : String} (v : Value) (h : c2 ≠ c) :
    lookupCell cs (setCell cs vs c v) c2 = lookupCell cs vs c2 := by
  induction cs generalizing vs with
  | nil => rfl
  | cons c0 cs ih =>
    cases vs with
    | nil => simp [setCell]
    | cons v0 vs =>
      by_cases he : c0 = c
      · have hne2 : c0 ≠ c2 := fun hx => h (hx.symm.trans he)
        simp [setCell, lookupCell, he, hne2, Ne.symm h]
      · simp only [setCell, if_neg he, lookupCell]
        by_cases h2 : c0 = c2
        · simp [h2]
        · simp [h2, ih]

/-! ### Lemmas about scalar column assignment -/

theorem setCol_cols (df : DataFrame) (c : String) (v : Value) :
    (setCol df c v).cols =
      if df.cols.contains c then df.cols else df.cols ++ [c] := rfl

theorem lookupCell_setColRow_self {cols : List String} {r : List Value}
    {c : String} (v : Value) (hlen : r.length = cols.length) :
    lookupCell (if cols.contains c then cols else cols ++ [c])
      (setColRow cols c v r) c = v := by
  by_cases hc : cols.contains c
  · have hm : c ∈ cols := by simpa using hc
    simp only [setColRow, hc, if_pos]
    exact lookupCell_setCell_self v hlen.symm hm
  · have hm : c ∉ cols := by simpa using hc
    simp only [setColRow, hc, if_neg, Bool.false_eq_true, ite_false]
    rw [lookupCell_append_right hlen.symm hm]
    simp [lookupCell]

theorem lookupCell_setColRow_ne {cols : List String} {r : List Value}
    {c c2 : String} (v : Value) (h : c2 ≠ c) (hlen : r.length = cols.length) :
    lookupCell (if cols.contains c then cols else cols ++ [c])
      (setColRow cols c v r) c2 = lookupCell cols r c2 := by
  by_cases hc : cols.contains c
  · simp only [setColRow, hc, if_pos]
    exact lookupCell_setCell_ne v h
  · simp only [setColRow, hc, if_neg, Bool.false_eq_true, ite_false]
    by_cases h2 : c2 ∈ cols
    · exact lookupCell_append_left hlen.symm h2
    · rw [lookupCell_append_right hlen.symm h2, lookupCell_not_mem h2]
      have hne : c ≠ c2 := fun he => h he.symm
      simp [lookupCell, hne]

theorem setColRow_length {cols : List String} {r : List Value}
    (c : String) (v : Value) (hlen : r.length = cols.length) :
    (setColRow cols c v r).length =
      (if cols.contains c then cols else cols ++ [c]).length := by
  by_cases hm : c ∈ cols
  · simp [setColRow, hm, setCell_length, hlen]
  · simp [setColRow, hm, hlen]

theorem WF_setCol {df : DataFrame} (c : String) (v : Value) (h : WF df) :
    WF (setCol df c v) := by
  intro r2 hr2
  simp only [setCol, List.mem_map] at hr2
  obtain ⟨r, hr, rfl⟩ := hr2
  exact setColRow_length c v (h r hr)

theorem setCol_rows_length (df : DataFrame) (c : String) (v : Value) :
    (setCol df c v).rows.length = df.rows.length := by
  simp [setCol]

theorem setCol_rows_ex {df : DataFrame} (c : String) (v : Value) (h : WF df) :
    ∀ r2 ∈ (setCol df c v).rows, ∃ r ∈ df.rows,
      (∀ c2, c2 ≠ c →
        lookupCell (setCol df c v).cols r2 c2 = lookupCell df.cols r c2) ∧
      lookupCell (setCol df c v).cols r2 c = v := by
  intro r2 hr2
  simp only [setCol, List.mem_map] at hr2
  obtain ⟨r, hr, rfl⟩ := hr2
  exact ⟨r, hr,
    fun c2 hc2 => lookupCell_setColRow_ne v hc2 (h r hr),
    lookupCell_setColRow_self v (h r hr)⟩

theorem colSumInt_setCol_ne {df : DataFrame} {c c2 : String} (v : Value)
    (hne : c2 ≠ c) (h : WF df) :
    colSumInt (setCol df c v) c2 = colSumInt df c2 := by
  unfold colSumInt getColumn
  simp only [setCol, List.map_map]
  congr 1
  refine List.map_congr_left (fun r hr => ?_)
  simp only [Function.comp_apply]
  rw [lookupCell_setColRow_ne v hne (h r hr)]

theorem mem_setCol_cols_self (df : DataFrame) (c : String) (v : Value) :
    c ∈ (setCol df c v).cols := by
  rw [setCol_cols]
  by_cases hm : c ∈ df.cols
  · simp [hm]
  · simp [hm]

theorem mem_setCol_cols_of {df : DataFrame} {x : String} (c : String)
    (v : Value) (h : x ∈ df.cols) : x ∈ (setCol df c v).cols := by
  rw [setCol_cols]
  by_cases hm : c ∈ df.cols <;> simp [hm, h]

/-! ### Lemmas about the total-category overwrites -/

/-- The step applied by `setTotals` for one descriptor. -/
def setTotalsStep (labels : String → Option String) (d : DataFrame)
    (a : Agg) : DataFrame :=
  let d1 := setCol d a.kolonne a.total_verdi
  match labels a.kolonne with
  | some lbl => setCol d1 lbl a.total_label
  | none => d1

theorem setTotals_cons (labels : String → Option String) (d : DataFrame)
    (a : Agg) (as : List Agg) :
    setTotals labels d (a :: as) =
      setTotals labels (setTotalsStep labels d a) as := rfl

theorem WF_setTotalsStep {d : DataFrame} (labels : String → Option String)
    (a : Agg) (h : WF d) : WF (setTotalsStep labels d a) := by
  unfold setTotalsStep
  cases labels a.kolonne with
  | none => exact WF_setCol _ _ h
  | some lbl => exact WF_setCol _ _ (WF_setCol _ _ h)

theorem WF_setTotals (labels : String → Option String) :
    ∀ (combo : List Agg) (d : DataFrame), WF d →
      WF (setTotals labels d combo) := by
  intro combo
  induction combo with
  | nil => intro d h; exact h
  | cons a as ih =>
    intro d h
    rw [setTotals_cons]
    exact ih _ (WF_setTotalsStep labels a h)

theorem setTotalsStep_rows_length (labels : String → Option String)
    (d : DataFrame) (a : Agg) :
    (setTotalsStep labels d a).rows.length = d.rows.length := by
  unfold setTotalsStep
  cases labels a.kolonne with
  | none => exact setCol_rows_length _ _ _
  | some lbl => rw [setCol_rows_length, setCol_rows_length]

theorem setTotals_rows_length (labels : String → Option String) :
    ∀ (combo : List Agg) (d : DataFrame),
      (setTotals labels d combo).rows.length = d.rows.length := by
  intro combo
  induction combo with
  | nil => intro d; rfl
  | cons a as ih =>
    intro d
    rw [setTotals_cons, ih, setTotalsStep_rows_length]

theorem setTotalsStep_rows_ex {d : DataFrame}
    (labels : String → Option String) (a : Agg) (h : WF d) :
    ∀ r2 ∈ (setTotalsStep labels d a).rows, ∃ r ∈ d.rows,
      ∀ c2, c2 ≠ a.kolonne →
        (∀ lbl, labels a.kolonne = some lbl → c2 ≠ lbl) →
        lookupCell (setTotalsStep labels d a).cols r2 c2 =
          lookupCell d.cols r c2 := by
  intro r2 hr2
  unfold setTotalsStep at hr2 ⊢
  cases hl : labels a.kolonne with
  | none =>
    simp only [hl] at hr2 ⊢
    obtain ⟨r, hr, hprop, -⟩ := setCol_rows_ex a.kolonne a.total_verdi h r2 hr2
    exact ⟨r, hr, fun c2 hc2 _ => hprop c2 hc2⟩
  | some lbl =>
    simp only [hl] at hr2 ⊢
    obtain ⟨r1, hr1, hprop1, -⟩ :=
      setCol_rows_ex lbl a.total_label (WF_setCol _ _ h) r2 hr2
    obtain ⟨r, hr, hprop, -⟩ := setCol_rows_ex a.kolonne a.total_verdi h r1 hr1
    refine ⟨r, hr, fun c2 hc2 hc3 => ?_⟩
    rw [hprop1 c2 (hc3 lbl rfl), hprop c2 hc2]

theorem setTotals_rows_ex (labels : String → Option String) :
    ∀ (combo : List Agg) (d : DataFrame), WF d →
      ∀ r2 ∈ (setTotals labels d combo).rows, ∃ r ∈ d.rows,
        ∀ c2,
          (∀ a ∈ combo, c2 ≠ a.kolonne ∧
            ∀ lbl, labels a.kolonne = some lbl → c2 ≠ lbl) →
          lookupCell (setTotals labels d combo).cols r2 c2 =
            lookupCell d.cols r c2 := by
  intro combo
  induction combo with
  | nil =>
    intro d _ r2 hr2
    exact ⟨r2, hr2, fun c2 _ => rfl⟩
  | cons a as ih =>
    intro d h r2 hr2
    rw [setTotals_cons] at hr2
    obtain ⟨r1, hr1, hprop1⟩ :=
      ih (setTotalsStep labels d a) (WF_setTotalsStep labels a h) r2 hr2
    obtain ⟨r, hr, hprop⟩ := setTotalsStep_rows_ex labels a h r1 hr1
    refine ⟨r, hr, fun c2 hc2 => ?_⟩
    have h1 := hprop1 c2 (fun b hb => hc2 b (List.mem_cons_of_mem _ hb))
    have h2 := hprop c2 (hc2 a (List.mem_cons_self _ _)).1
      (hc2 a (List.mem_cons_self _ _)).2
    rw [setTotals_cons, h1, h2]

theorem colSumInt_setTotals (labels : String → Option String) {c2 : String} :
    ∀ (combo : List Agg) (d : DataFrame), WF d →
      (∀ a ∈ combo, c2 ≠ a.kolonne ∧
        ∀ lbl, labels a.kolonne = some lbl → c2 ≠ lbl) →
      colSumInt (setTotals labels d combo) c2 = colSumInt d c2 := by
  intro combo
  induction combo with
  | nil => intro d _ _; rfl
  | cons a as ih =>
    intro d h hc
    rw [setTotals_cons, ih _ (WF_setTotalsStep labels a h)
      (fun b hb => hc b (List.mem_cons_of_mem _ hb))]
    have ha := hc a (List.mem_cons_self _ _)
    unfold setTotalsStep
    cases hl : labels a.kolonne with
    | none => exact colSumInt_setCol_ne _ ha.1 h
    | some lbl =>
      rw [colSumInt_setCol_ne _ (ha.2 lbl hl) (WF_setCol _ _ h)]
      exact colSumInt_setCol_ne _ ha.1 h

/-! ### Lemmas about label columns and grouping columns -/

theorem listPrefixB_append_self : ∀ x y : List Char, listPrefixB x (x ++ y) = true
  | [], _ => rfl
  | a :: as, y => by simp [listPrefixB, listPrefixB_append_self as y]

theorem strEndsWith_append (a b : String) : strEndsWith (a ++ b) b = true := by
  unfold strEndsWith
  have h : (a ++ b).toList = a.toList ++ b.toList := by
    simp [String.toList]
  rw [h, List.reverse_append]
  exact listPrefixB_append_self _ _

theorem is_label_col_suffix {s : String} (k : String)
    (hs : s ∈ [".1", "_fmt", "_label", "_navn", "_name"]) :
    is_label_col (k ++ s) = true := by
  unfold is_label_col
  rw [List.any_eq_true]
  exact ⟨s, hs, strEndsWith_append k s⟩

theorem find_label_col_some {k : String} {cols : List String} {l : String}
    (h : find_label_col k cols = some l) :
    l ∈ cols ∧ l ≠ k ∧ is_label_col l = true := by
  unfold find_label_col at h
  have hmem := List.mem_of_find?_eq_some h
  have hpred := List.find?_some h
  have hcols : l ∈ cols := by simpa using hpred
  have hne_len : ∀ s : String, s.length ≠ 0 → l = k ++ s → l ≠ k := by
    intro s hs he h2
    rw [h2] at he
    have := congrArg String.length he
    rw [String.length_append] at this
    omega
  refine ⟨hcols, ?_, ?_⟩
  · simp only [List.mem_cons, List.not_mem_nil, or_false] at hmem
    rcases hmem with h1 | h1 | h1 | h1 | h1 <;>
      exact hne_len _ (by decide) h1
  · simp only [List.mem_cons, List.not_mem_nil, or_false] at hmem
    rcases hmem with h1 | h1 | h1 | h1 | h1 <;>
      (subst h1; exact is_label_col_suffix k (by decide))

theorem mem_groupColsOf {cols exclude : List String} {c : String} :
    c ∈ groupColsOf cols exclude ↔
      c ∈ cols ∧ c ∉ exclude ∧ is_label_col c = false := by
  unfold groupColsOf
  simp [List.mem_filter]

/-! ### Partition of a column sum over group keys -/

theorem sum_map_filter_not {R : Type} (q : R → Bool) (f : R → Int) :
    ∀ rows : List R,
      ((rows.filter q).map f).sum +
        ((rows.filter (fun r => !(q r))).map f).sum = (rows.map f).sum := by
  intro rows
  induction rows with
  | nil => simp
  | cons r rs ih =>
    by_cases hq : q r = true
    · simp only [List.filter_cons, hq, if_pos, Bool.not_true, Bool.false_eq_true,
        ite_false, List.map_cons, List.sum_cons]
      rw [add_assoc, ih]
    · have hq' : q r = false := by simpa using hq
      simp only [List.filter_cons, hq', Bool.false_eq_true, ite_false,
        Bool.not_false, if_pos, List.map_cons, List.sum_cons]
      rw [add_left_comm, ih]

theorem sum_partition {κ R : Type} [DecidableEq κ] (key : R → κ) (f : R → Int) :
    ∀ (ks : List κ) (rows : List R), ks.Nodup →
      (∀ r ∈ rows, key r ∈ ks) →
      (ks.map (fun k => ((rows.filter (fun r => key r = k)).map f).sum)).sum
        = (rows.map f).sum := by
  intro ks
  induction ks with
  | nil =>
    intro rows _ hall
    cases rows with
    | nil => simp
    | cons r rs => exact absurd (hall r (List.mem_cons_self _ _)) (List.not_mem_nil _)
  | cons k0 ks ih =>
    intro rows hnd hall
    simp only [List.map_cons, List.sum_cons]
    have hk0 : k0 ∉ ks := (List.nodup_cons.mp hnd).1
    have hnd' : ks.Nodup := (List.nodup_cons.mp hnd).2
    have hall' : ∀ r ∈ rows.filter (fun r => !(decide (key r = k0))),
        key r ∈ ks := by
      intro r hr
      have h1 := (List.mem_filter.mp hr).1
      have h2 := (List.mem_filter.mp hr).2
      have hne : key r ≠ k0 := by simpa using h2
      rcases List.mem_cons.mp (hall r h1) with h3 | h3
      · exact absurd h3 hne
      · exact h3
    have hrec := ih (rows.filter (fun r => !(decide (key r = k0)))) hnd' hall'
    have hmap : ks.map (fun k =>
        (((rows.filter (fun r => !(decide (key r = k0)))).filter
          (fun r => key r = k)).map f).sum) =
        ks.map (fun k => ((rows.filter (fun r => key r = k)).map f).sum) := by
      refine List.map_congr_left (fun k hk => ?_)
      have hkne : k ≠ k0 := fun he => hk0 (he ▸ hk)
      congr 1
      congr 1
      rw [List.filter_filter]
      refine List.filter_congr (fun r _ => ?_)
      by_cases he : key r = k
      · have hne0 : key r ≠ k0 := fun h2 => hkne (he.symm.trans h2)
        simp [he, hne0, hkne]
      · simp [he]
    rw [hmap] at hrec
    rw [hrec]
    exact sum_map_filter_not (fun r => decide (key r = k0)) f rows

/-! ### Lemmas about `groupby_agg` and `sumFrame` -/

theorem sortedKeys_nodup (df : DataFrame) (g : List String) :
    (sortedKeys df g).Nodup :=
  ((List.perm_insertionSort _ _).nodup_iff).mpr
    (nodup_dedupFirst _)

theorem mem_sortedKeys {df : DataFrame} {g : List String} {k : List Value} :
    k ∈ sortedKeys df g ↔ ∃ r ∈ df.rows, rowKey df.cols g r = k := by
  rw [sortedKeys, (List.perm_insertionSort _ _).mem_iff, mem_dedupFirst]
  simp [List.mem_map]

theorem groupby_agg_ok {df : DataFrame} {g v : List String} {res : DataFrame}
    (h : groupby_agg df g v = .ok res) :
    g ≠ [] ∧ (∀ x ∈ v, x ∈ df.cols ∧ x ∉ g) ∧
    res.cols = g ++ v ∧
    res.rows = (sortedKeys df g).map (fun k =>
      k ++ v.map (fun x => Value.num (groupSum df g k x))) := by
  unfold groupby_agg at h
  by_cases h1 : g.isEmpty
  · rw [if_pos h1] at h; cases h
  · rw [if_neg h1] at h
    by_cases h2 : v.any (fun x => !(df.cols.contains x) || g.contains x)
    · rw [if_pos h2] at h; cases h
    · rw [if_neg h2] at h
      injection h with h
      subst h
      refine ⟨fun he => h1 (by simp [he]), ?_, rfl, rfl⟩
      intro x hx
      have hx2 : ¬((!(df.cols.contains x) || g.contains x) = true) :=
        fun hc => h2 (List.any_eq_true.mpr ⟨x, hx, hc⟩)
      simp only [Bool.or_eq_true, Bool.not_eq_true', not_or] at hx2
      obtain ⟨ha, hb⟩ := hx2
      exact ⟨by simpa using ha, by simpa using hb⟩

theorem groupby_res_WF {df : DataFrame} {g v : List String} {res : DataFrame}
    (h : groupby_agg df g v = .ok res) : WF res := by
  obtain ⟨-, -, hcols, hrows⟩ := groupby_agg_ok h
  intro r hr
  rw [hrows] at hr
  obtain ⟨k, hk, rfl⟩ := List.mem_map.mp hr
  obtain ⟨r0, -, hk0⟩ := mem_sortedKeys.mp hk
  rw [hcols, ← hk0]
  simp [rowKey]

theorem groupby_res_row {df : DataFrame} {g v : List String} {res : DataFrame}
    (h : groupby_agg df g v = .ok res) {M : String} (hMv : M ∈ v) :
    ∀ row ∈ res.rows,
      rowKey res.cols g row ∈ sortedKeys df g ∧
      lookupCell res.cols row M =
        Value.num (groupSum df g (rowKey res.cols g row) M) := by
  obtain ⟨-, hv, hcols, hrows⟩ := groupby_agg_ok h
  intro row hrow
  rw [hrows] at hrow
  obtain ⟨k, hk, rfl⟩ := List.mem_map.mp hrow
  obtain ⟨r0, hr0, hk0⟩ := mem_sortedKeys.mp hk
  have hMg : M ∉ g := (hv M hMv).2
  have hkey : rowKey res.cols g
      (k ++ v.map fun x => Value.num (groupSum df g k x)) = k := by
    rw [hcols]
    conv_rhs => rw [← hk0]
    unfold rowKey
    subst hk0
    refine List.map_congr_left (fun gc hgc => ?_)
    rw [lookupCell_append_left (by simp [rowKey]) hgc]
    exact lookupCell_map_self _ hgc
  refine ⟨?_, ?_⟩
  · rw [hkey]; exact hk
  rw [hkey, hcols]
  have hlen : g.length = k.length := by rw [← hk0]; simp [rowKey]
  rw [lookupCell_append_right hlen hMg]
  exact lookupCell_map_self _ hMv

theorem groupby_res_colSum {df : DataFrame} {g v : List String}
    {res : DataFrame} (h : groupby_agg df g v = .ok res) {M : String}
    (hMv : M ∈ v) : colSumInt res M = colSumInt df M := by
  obtain ⟨-, hv, hcols, hrows⟩ := groupby_agg_ok h
  have hMg : M ∉ g := (hv M hMv).2
  unfold colSumInt getColumn
  rw [hrows, hcols]
  simp only [List.map_map]
  have hpt : ∀ k ∈ sortedKeys df g,
      (Value.toInt ∘ (fun r => lookupCell (g ++ v) r M) ∘ fun k =>
        k ++ v.map fun x => Value.num (groupSum df g k x)) k
      = groupSum df g k M := by
    intro k hk
    obtain ⟨r0, -, hk0⟩ := mem_sortedKeys.mp hk
    have hlen : g.length = k.length := by rw [← hk0]; simp [rowKey]
    simp only [Function.comp_apply]
    rw [lookupCell_append_right hlen hMg, lookupCell_map_self _ hMv]
    rfl
  rw [List.map_congr_left hpt]
  have hpart := sum_partition (fun r => rowKey df.cols g r)
    (fun r => (lookupCell df.cols r M).toInt) (sortedKeys df g) df.rows
    (sortedKeys_nodup df g)
    (fun r hr => mem_sortedKeys.mpr ⟨r, hr, rfl⟩)
  calc ((sortedKeys df g).map (fun k => groupSum df g k M)).sum
      = ((sortedKeys df g).map (fun k => ((df.rows.filter
          (fun r => rowKey df.cols g r = k)).map
          (fun r => (lookupCell df.cols r M).toInt)).sum)).sum := rfl
    _ = (df.rows.map (fun r => (lookupCell df.cols r M).toInt)).sum := hpart
    _ = (List.map (Value.toInt ∘ fun r => lookupCell df.cols r M) df.rows).sum :=
          rfl

theorem sumFrame_ok {df : DataFrame} {v : List String} {res : DataFrame}
    (h : sumFrame df v = .ok res) :
    (∀ x ∈ v, x ∈ df.cols) ∧ res.cols = v ∧
    res.rows = (if v.isEmpty then []
                else [v.map (fun c => Value.num (colSumInt df c))]) := by
  unfold sumFrame at h
  by_cases h1 : v.any (fun x => !(df.cols.contains x))
  · rw [if_pos h1] at h; cases h
  · rw [if_neg h1] at h
    injection h with h
    subst h
    refine ⟨?_, rfl, rfl⟩
    intro x hx
    have h2 : ¬((!(df.cols.contains x)) = true) :=
      fun hc => h1 (List.any_eq_true.mpr ⟨x, hx, hc⟩)
    simp only [Bool.not_eq_true'] at h2
    have h3 : df.cols.contains x = true := by
      cases hb : df.cols.contains x
      · exact absurd hb h2
      · rfl
    simpa using h3

/-- With an empty grouping-key list every base row has the empty key,
so the single group's sum is the whole column sum. -/
theorem groupSum_nil (df : DataFrame) (M : String) :
    groupSum df [] [] M = colSumInt df M := by
  unfold groupSum colSumInt getColumn
  rw [List.filter_eq_self.mpr (fun r _ => by simp [rowKey])]
  rw [List.map_map]
  rfl

/-! ### Conservation through the total-category overwrites -/

/-- Conditions under which a column is untouched by `setTotals`. -/
theorem untouched_cond {df : DataFrame} {combo : List Agg} {c : String}
    (hk : ∀ a ∈ combo, c ≠ a.kolonne) (hl : is_label_col c = false) :
    ∀ a ∈ combo, c ≠ a.kolonne ∧
      ∀ lbl, find_label_col a.kolonne df.cols = some lbl → c ≠ lbl := by
  intro a ha
  refine ⟨hk a ha, fun lbl hlbl he => ?_⟩
  have := (find_label_col_some hlbl).2.2
  rw [← he, hl] at this
  cases this

/-- Summed-measure conservation transfers from a grouped block through
the total-category overwrites. -/
theorem setTotals_block_conserves {df base : DataFrame}
    {combo : List Agg} {gcols : List String} {M : String}
    (hMk : ∀ a ∈ combo, M ≠ a.kolonne) (hMl : is_label_col M = false)
    (hgc : ∀ gc ∈ gcols, (∀ a ∈ combo, gc ≠ a.kolonne) ∧
      is_label_col gc = false)
    (hWF : WF base)
    (hsum : colSumInt base M = colSumInt df M)
    (hrow : ∀ row ∈ base.rows, (lookupCell base.cols row M).toInt =
      groupSum df gcols (rowKey base.cols gcols row) M) :
    colSumInt (setTotals (fun k => find_label_col k df.cols) base combo) M
      = colSumInt df M ∧
    ∀ row ∈ (setTotals (fun k => find_label_col k df.cols) base combo).rows,
      (lookupCell
        (setTotals (fun k => find_label_col k df.cols) base combo).cols row
        M).toInt =
      groupSum df gcols
        (rowKey
          (setTotals (fun k => find_label_col k df.cols) base combo).cols
          gcols row) M := by
  constructor
  · rw [colSumInt_setTotals _ combo base hWF (untouched_cond hMk hMl)]
    exact hsum
  · intro row hrowm
    obtain ⟨r, hr, hprop⟩ :=
      setTotals_rows_ex (fun k => find_label_col k df.cols) combo base hWF
        row hrowm
    have hMeq := hprop M (untouched_cond hMk hMl)
    have hkeq : rowKey
        (setTotals (fun k => find_label_col k df.cols) base combo).cols gcols
        row = rowKey base.cols gcols r := by
      unfold rowKey
      refine List.map_congr_left (fun gc hgcm => ?_)
      exact hprop gc (untouched_cond (hgc gc hgcm).1 (hgc gc hgcm).2)
    rw [hMeq, hkeq]
    exact hrow r hr

theorem sumFrame_WF {df : DataFrame} {v : List String} {res : DataFrame}
    (h : sumFrame df v = .ok res) : WF res := by
  obtain ⟨-, hcols, hrows⟩ := sumFrame_ok h
  intro r hr
  rw [hrows] at hr
  by_cases he : v.isEmpty
  · rw [if_pos he] at hr; simp at hr
  · rw [if_neg he] at hr
    simp only [List.mem_singleton] at hr
    subst hr
    rw [hcols]
    simp

theorem singleRollup_ok_parts {df : DataFrame} {value_cols : List String}
    {a : Agg} {res : DataFrame} (h : singleRollup df value_cols a = .ok res) :
    ∃ g0, groupby_agg df (singleGroupCols df value_cols a) value_cols = .ok g0
      ∧ res = setTotals (fun k => find_label_col k df.cols) g0 [a] := by
  unfold singleRollup at h
  dsimp only at h
  cases hg : groupby_agg df (singleGroupCols df value_cols a) value_cols with
  | error e => rw [hg] at h; cases h
  | ok g0 =>
    rw [hg] at h
    injection h with h
    refine ⟨g0, rfl, ?_⟩
    rw [← h]
    cases hl : find_label_col a.kolonne df.cols <;>
      simp [setTotals, setTotalsStep, hl]

theorem crossRollup_ok_parts {df : DataFrame} {value_cols : List String}
    {combo : List Agg} {res : DataFrame}
    (h : crossRollup df value_cols combo = .ok res) :
    ∃ base,
      (if (crossGroupCols df value_cols combo).isEmpty then
        sumFrame df value_cols
      else groupby_agg df (crossGroupCols df value_cols combo) value_cols)
        = .ok base ∧
      res = setTotals (fun k => find_label_col k df.cols) base combo := by
  unfold crossRollup at h
  dsimp only at h
  cases hb : (if (crossGroupCols df value_cols combo).isEmpty then
      sumFrame df value_cols
    else groupby_agg df (crossGroupCols df value_cols combo) value_cols) with
  | error e => rw [hb] at h; cases h
  | ok b =>
    rw [hb] at h
    injection h with h
    exact ⟨b, rfl, h.symm⟩

theorem singleGroupCols_cond {df : DataFrame} {value_cols : List String}
    {a : Agg} : ∀ gc ∈ singleGroupCols df value_cols a,
      gc ≠ a.kolonne ∧ is_label_col gc = false ∧ gc ∉ value_cols := by
  intro gc hgc
  have hm := mem_groupColsOf.mp hgc
  have hex := hm.2.1
  refine ⟨fun he => hex ?_, hm.2.2, fun hv => hex ?_⟩
  · rw [he]; unfold singleExclude; simp
  · unfold singleExclude; simp [hv]

theorem crossGroupCols_cond {df : DataFrame} {value_cols : List String}
    {combo : List Agg} : ∀ gc ∈ crossGroupCols df value_cols combo,
      (∀ a ∈ combo, gc ≠ a.kolonne) ∧ is_label_col gc = false ∧
      gc ∉ value_cols := by
  intro gc hgc
  have hm := mem_groupColsOf.mp hgc
  have hex := hm.2.1
  refine ⟨fun a ha he => hex ?_, hm.2.2, fun hv => hex ?_⟩
  · unfold crossExclude
    refine List.mem_append_left _ (List.mem_append_left _ ?_)
    rw [he]
    exact List.mem_map.mpr ⟨a, ha, rfl⟩
  · unfold crossExclude
    exact List.mem_append_right _ hv

/-- Mass conservation for a single-dimension roll-up block: the summed
measure total is preserved, and each synthesized row carries the sum
of the base rows sharing its grouping key. -/
theorem singleRollup_conserves {df : DataFrame} {value_cols : List String}
    {a : Agg} {res : DataFrame} {M : String}
    (hM : M ∈ value_cols) (hMl : is_label_col M = false)
    (hMk : M ≠ a.kolonne)
    (h : singleRollup df value_cols a = .ok res) :
    colSumInt res M = colSumInt df M ∧
    ∀ row ∈ res.rows, (lookupCell res.cols row M).toInt =
      groupSum df (singleGroupCols df value_cols a)
        (rowKey res.cols (singleGroupCols df value_cols a) row) M := by
  obtain ⟨g0, hg, rfl⟩ := singleRollup_ok_parts h
  have hWF := groupby_res_WF hg
  have hsum := groupby_res_colSum hg hM
  have hrow : ∀ row ∈ g0.rows, (lookupCell g0.cols row M).toInt =
      groupSum df (singleGroupCols df value_cols a)
        (rowKey g0.cols (singleGroupCols df value_cols a) row) M := by
    intro row hr
    obtain ⟨-, hlook⟩ := groupby_res_row hg hM row hr
    rw [hlook]
    rfl
  refine setTotals_block_conserves ?_ hMl ?_ hWF hsum hrow
  · intro b hb
    rw [List.mem_singleton] at hb
    subst hb
    exact hMk
  · intro gc hgc
    refine ⟨?_, (singleGroupCols_cond gc hgc).2.1⟩
    intro b hb
    rw [List.mem_singleton] at hb
    subst hb
    exact (singleGroupCols_cond gc hgc).1

/-- Mass conservation for a cross-combination roll-up block, including
the degenerate grand-total case. -/
theorem crossRollup_conserves {df : DataFrame} {value_cols : List String}
    {combo : List Agg} {res : DataFrame} {M : String}
    (hM : M ∈ value_cols) (hMl : is_label_col M = false)
    (hMk : ∀ a ∈ combo, M ≠ a.kolonne)
    (h : crossRollup df value_cols combo = .ok res) :
    colSumInt res M = colSumInt df M ∧
    ∀ row ∈ res.rows, (lookupCell res.cols row M).toInt =
      groupSum df (crossGroupCols df value_cols combo)
        (rowKey res.cols (crossGroupCols df value_cols combo) row) M := by
  obtain ⟨base, hb, rfl⟩ := crossRollup_ok_parts h
  by_cases hge : (crossGroupCols df value_cols combo).isEmpty
  · rw [if_pos hge] at hb
    obtain ⟨-, hcols, hrows⟩ := sumFrame_ok hb
    have hgnil : crossGroupCols df value_cols combo = [] := by
      simpa using hge
    have hvne : ¬ value_cols.isEmpty = true := by
      cases value_cols with
      | nil => simp at hM
      | cons x xs => simp
    have hWF := sumFrame_WF hb
    have hsum : colSumInt base M = colSumInt df M := by
      unfold colSumInt getColumn
      rw [hrows, hcols, if_neg hvne]
      simp only [List.map_cons, List.map_nil, List.sum_cons, List.sum_nil]
      rw [lookupCell_map_self _ hM]
      simp only [Value.toInt, List.sum_nil, add_zero]
      unfold colSumInt getColumn
      rw [List.map_map]
    have hrow : ∀ row ∈ base.rows, (lookupCell base.cols row M).toInt =
        groupSum df (crossGroupCols df value_cols combo)
          (rowKey base.cols (crossGroupCols df value_cols combo) row) M := by
      intro row hr
      rw [hrows, if_neg hvne] at hr
      simp only [List.mem_singleton] at hr
      subst hr
      rw [hgnil]
      have hknil : rowKey base.cols []
          (value_cols.map (fun c => Value.num (colSumInt df c))) = [] := rfl
      rw [hknil, groupSum_nil, hcols, lookupCell_map_self _ hM]
      rfl
    exact setTotals_block_conserves hMk hMl
      (by rw [hgnil]; intro gc hgc; simp at hgc) hWF hsum hrow
  · rw [if_neg hge] at hb
    have hWF := groupby_res_WF hb
    have hsum := groupby_res_colSum hb hM
    have hrow : ∀ row ∈ base.rows, (lookupCell base.cols row M).toInt =
        groupSum df (crossGroupCols df value_cols combo)
          (rowKey base.cols (crossGroupCols df value_cols combo) row) M := by
      intro row hr
      obtain ⟨-, hlook⟩ := groupby_res_row hb hM row hr
      rw [hlook]
      rfl
    refine setTotals_block_conserves hMk hMl ?_ hWF hsum hrow
    intro gc hgc
    exact ⟨(crossGroupCols_cond gc hgc).1, (crossGroupCols_cond gc hgc).2.1⟩

/-! ### The overwrites actually set the total code and label -/

theorem setTotalsStep_sets (labels : String → Option String) (d : DataFrame)
    (a0 : Agg) (hWF : WF d)
    (hkl : ∀ lbl, labels a0.kolonne = some lbl → a0.kolonne ≠ lbl) :
    ∀ r2 ∈ (setTotalsStep labels d a0).rows,
      lookupCell (setTotalsStep labels d a0).cols r2 a0.kolonne
        = a0.total_verdi ∧
      ∀ lbl, labels a0.kolonne = some lbl →
        lookupCell (setTotalsStep labels d a0).cols r2 lbl
          = a0.total_label := by
  intro r2 hr2
  unfold setTotalsStep at hr2 ⊢
  cases hl : labels a0.kolonne with
  | none =>
    simp only [hl] at hr2 ⊢
    obtain ⟨r, hr, -, hself⟩ :=
      setCol_rows_ex a0.kolonne a0.total_verdi hWF r2 hr2
    exact ⟨hself, fun lbl h => by cases h⟩
  | some lbl0 =>
    simp only [hl] at hr2 ⊢
    have hne := hkl lbl0 hl
    obtain ⟨r1, hr1, hpres, hself⟩ :=
      setCol_rows_ex lbl0 a0.total_label (WF_setCol _ _ hWF) r2 hr2
    obtain ⟨r, hr, -, hself0⟩ :=
      setCol_rows_ex a0.kolonne a0.total_verdi hWF r1 hr1
    constructor
    · rw [hpres a0.kolonne hne, hself0]
    · intro lbl h
      injection h with h
      subst h
      exact hself

theorem setTotals_sets (labels : String → Option String) :
    ∀ (combo : List Agg) (d : DataFrame), WF d →
      (combo.flatMap (fun a => a.kolonne :: (labels a.kolonne).toList)).Nodup →
      ∀ a ∈ combo, ∀ r2 ∈ (setTotals labels d combo).rows,
        lookupCell (setTotals labels d combo).cols r2 a.kolonne
          = a.total_verdi ∧
        ∀ lbl, labels a.kolonne = some lbl →
          lookupCell (setTotals labels d combo).cols r2 lbl
            = a.total_label := by
  intro combo
  induction combo with
  | nil => intro d _ _ a ha; simp at ha
  | cons a0 as ih =>
    intro d hWF hnd a ha r2 hr2
    rw [setTotals_cons] at hr2 ⊢
    have hWF1 : WF (setTotalsStep labels d a0) := WF_setTotalsStep labels a0 hWF
    have hnd2 : ((a0.kolonne :: (labels a0.kolonne).toList) ++
        as.flatMap (fun a => a.kolonne :: (labels a.kolonne).toList)).Nodup := by
      have hfm : (a0 :: as).flatMap
          (fun a => a.kolonne :: (labels a.kolonne).toList) =
          (a0.kolonne :: (labels a0.kolonne).toList) ++
          as.flatMap (fun a => a.kolonne :: (labels a.kolonne).toList) := rfl
      rw [← hfm]
      exact hnd
    obtain ⟨hnd_head, hnd_rest, hdisj⟩ := List.nodup_append.mp hnd2
    have hsep : ∀ x ∈ a0.kolonne :: (labels a0.kolonne).toList, ∀ b ∈ as,
        x ≠ b.kolonne ∧ ∀ lbl, labels b.kolonne = some lbl → x ≠ lbl := by
      intro x hx b hb
      constructor
      · intro he
        exact hdisj hx
          (List.mem_flatMap.mpr ⟨b, hb, by rw [he]; exact List.mem_cons_self _ _⟩)
      · intro lbl hlbl he
        refine hdisj hx (List.mem_flatMap.mpr ⟨b, hb, ?_⟩)
        rw [he]
        exact List.mem_cons_of_mem _ (by simp [hlbl])
    rcases List.mem_cons.mp ha with rfl | hmem
    · obtain ⟨r1, hr1, hpres⟩ :=
        setTotals_rows_ex labels as (setTotalsStep labels d a) hWF1 r2 hr2
      have hstep := setTotalsStep_sets labels d a hWF (fun lbl hl he => by
        have hnm : a.kolonne ∉ (labels a.kolonne).toList :=
          (List.nodup_cons.mp hnd_head).1
        exact hnm (by rw [hl]; simpa using he) ) r1 hr1
      constructor
      · rw [hpres a.kolonne
          (fun b hb => hsep a.kolonne (List.mem_cons_self _ _) b hb)]
        exact hstep.1
      · intro lbl hlbl
        rw [hpres lbl
          (fun b hb => hsep lbl (List.mem_cons_of_mem _ (by simp [hlbl])) b hb)]
        exact hstep.2 lbl hlbl
    · exact ih (setTotalsStep labels d a0) hWF1 hnd_rest a hmem r2 hr2

/-! ### Lemmas for the final assembly -/

theorem mapME_ok {α β : Type} {f : α → Except String β} :
    ∀ {l : List α} {bs : List β}, mapME f l = .ok bs →
      List.Forall₂ (fun a b => f a = .ok b) l bs := by
  intro l
  induction l with
  | nil =>
    intro bs h
    unfold mapME at h
    injection h with h
    subst h
    exact List.Forall₂.nil
  | cons a as ih =>
    intro bs h
    unfold mapME at h
    cases hfa : f a with
    | error e => rw [hfa] at h; cases h
    | ok b =>
      rw [hfa] at h
      cases hrec : mapME f as with
      | error e => rw [hrec] at h; cases h
      | ok bs0 =>
        rw [hrec] at h
        injection h with h
        subst h
        exact List.Forall₂.cons hfa (ih hrec)

theorem forall₂_imp_mem {α β : Type} {R S : α → β → Prop} :
    ∀ {l : List α} {l2 : List β}, List.Forall₂ R l l2 →
      (∀ a ∈ l, ∀ b, R a b → S a b) → List.Forall₂ S l l2 := by
  intro l l2 h
  induction h with
  | nil => intro _; exact List.Forall₂.nil
  | cons hab htail ih =>
    intro himp
    exact List.Forall₂.cons
      (himp _ (List.mem_cons_self _ _) _ hab)
      (ih (fun a ha b hr => himp a (List.mem_cons_of_mem _ ha) b hr))

theorem forall₂_append {α β : Type} {R : α → β → Prop} :
    ∀ {l1 l3 : List α} {l2 l4 : List β}, List.Forall₂ R l1 l2 →
      List.Forall₂ R l3 l4 → List.Forall₂ R (l1 ++ l3) (l2 ++ l4) := by
  intro l1 l3 l2 l4 h
  induction h with
  | nil => intro h2; exact h2
  | cons hab htail ih =>
    intro h2
    exact List.Forall₂.cons hab (ih h2)

theorem combinations_one : ∀ l : List α, combinations 1 l = l.map (fun a => [a])
  | [] => rfl
  | x :: xs => by
    simp [combinations, combinations_one xs]

theorem mem_combinations_length {l : List α} :
    ∀ {r : Nat} {s : List α}, s ∈ combinations r l → s.length = r := by
  induction l with
  | nil =>
    intro r s hs
    cases r with
    | zero => simp only [combinations, List.mem_singleton] at hs; simp [hs]
    | succ r => simp [combinations] at hs
  | cons x xs ih =>
    intro r s hs
    cases r with
    | zero => simp only [combinations, List.mem_singleton] at hs; simp [hs]
    | succ r =>
      simp only [combinations, List.mem_append, List.mem_map] at hs
      rcases hs with ⟨c, hc, rfl⟩ | hs
      · simp [ih hc]
      · exact ih hs

theorem length_combinations : ∀ (l : List α) (r : Nat),
    (combinations r l).length = l.length.choose r := by
  intro l
  induction l with
  | nil =>
    intro r
    cases r <;> simp [combinations]
  | cons x xs ih =>
    intro r
    cases r with
    | zero => simp [combinations]
    | succ r =>
      simp only [combinations, List.length_append, List.length_map,
        List.length_cons]
      rw [ih r, ih (r + 1), Nat.choose_succ_succ]

theorem list_sum_range (n : Nat) (f : Nat → Nat) :
    ((List.range n).map f).sum = ∑ i in Finset.range n, f i := by
  rw [Finset.sum_eq_multiset_sum, Finset.range_val, Multiset.range]
  simp [Multiset.sum_coe]

theorem specSubsetOrder_length (aggs : List Agg) :
    (specSubsetOrder aggs).length = 2 ^ aggs.length - 1 := by
  unfold specSubsetOrder
  rw [List.length_flatMap]
  have h1 : ∀ i ∈ List.range aggs.length,
      (List.length ∘ fun i => combinations (i + 1) aggs) i =
      aggs.length.choose (i + 1) := by
    intro i _
    simp only [Function.comp_apply]
    exact length_combinations aggs (i + 1)
  rw [List.map_congr_left h1, list_sum_range]
  have h2 := Nat.sum_range_choose aggs.length
  rw [Finset.sum_range_succ'] at h2
  have h3 : aggs.length.choose 0 = 1 := Nat.choose_zero_right _
  omega

theorem rollupOf_of_two {df : DataFrame} {v : List String} {S : List Agg}
    (h : 2 ≤ S.length) : rollupOf df v S = crossRollup df v S := by
  match S with
  | [] => simp at h
  | [a] => simp at h
  | a :: b :: T => rfl

theorem specSubsetOrder_eq {aggs : List Agg} (hne : aggs ≠ []) :
    specSubsetOrder aggs =
      aggs.map (fun a => [a]) ++
      (crossSizes aggs.length).flatMap (fun r => combinations r aggs) := by
  unfold specSubsetOrder crossSizes
  obtain ⟨n, hn⟩ : ∃ n, aggs.length = n + 1 := by
    cases aggs with
    | nil => exact absurd rfl hne
    | cons a as => exact ⟨as.length, rfl⟩
  rw [hn]
  rw [List.range_succ_eq_map]
  have hcons : (0 :: (List.range n).map (· + 1)).flatMap
      (fun i => combinations (i + 1) aggs) =
      combinations 1 aggs ++ ((List.range n).map (· + 1)).flatMap
        (fun i => combinations (i + 1) aggs) := rfl
  rw [hcons]
  congr 1
  · exact combinations_one aggs
  · rw [List.flatMap_map]
    have hn1 : n + 1 - 1 = n := rfl
    rw [hn1, List.range'_eq_map_range, List.flatMap_map]
    congr 1
    funext i
    congr 1
    omega

theorem apply_ok_parts {df : DataFrame} {aggs : List Agg}
    {v : Option (List String)} {F : DataFrame} (hne : aggs ≠ [])
    (h : apply_aggregeringer df aggs v = .ok F) :
    ∃ singles crosses,
      mapME (singleRollup df (resolveValueCols df aggs v)) aggs
        = .ok singles ∧
      mapME (crossRollup df (resolveValueCols df aggs v))
        ((crossSizes aggs.length).flatMap (fun r => combinations r aggs))
        = .ok crosses ∧
      F = concatDF (df :: (singles ++ crosses)) := by
  unfold apply_aggregeringer at h
  rw [if_neg (by simpa using hne)] at h
  dsimp only at h
  cases hs : mapME (singleRollup df (resolveValueCols df aggs v)) aggs with
  | error e => rw [hs] at h; cases h
  | ok singles =>
    rw [hs] at h
    cases hc : mapME (crossRollup df (resolveValueCols df aggs v))
        ((crossSizes aggs.length).flatMap (fun r => combinations r aggs)) with
    | error e => rw [hc] at h; cases h
    | ok crosses =>
      rw [hc] at h
      injection h with h
      exact ⟨singles, crosses, rfl, rfl, h.symm⟩

/-! ### Claim theorems -/

/-- C1: Mass conservation.  For every base table, measure column `M` of
the summed set (a genuine measure: not label-suffixed and not a
rolled-up dimension), and every roll-up the engine produces — a
single-dimension roll-up for a descriptor, or a cross-combination
roll-up for any non-empty descriptor subset — the sum of `M` over the
roll-up rows equals the sum of `M` over the whole base table, and each
roll-up row's `M` entry equals the sum of `M` over exactly the base
rows that group into it (the rows sharing its grouping key). -/
theorem mass_conservation (df : DataFrame) (value_cols : List String)
    (M : String) (hM : M ∈ value_cols) (hMl : is_label_col M = false) :
    (∀ a : Agg, M ≠ a.kolonne → ∀ res,
      singleRollup df value_cols a = .ok res →
      colSumInt res M = colSumInt df M ∧
      ∀ row ∈ res.rows, (lookupCell res.cols row M).toInt =
        groupSum df (singleGroupCols df value_cols a)
          (rowKey res.cols (singleGroupCols df value_cols a) row) M) ∧
    (∀ combo : List Agg, (∀ a ∈ combo, M ≠ a.kolonne) → ∀ res,
      crossRollup df value_cols combo = .ok res →
      colSumInt res M = colSumInt df M ∧
      ∀ row ∈ res.rows, (lookupCell res.cols row M).toInt =
        groupSum df (crossGroupCols df value_cols combo)
          (rowKey res.cols (crossGroupCols df value_cols combo) row) M) :=
  ⟨fun _ hak res h => singleRollup_conserves hM hMl hak h,
   fun _ hc res h => crossRollup_conserves hM hMl hc h⟩

/-- C1 witness: on the repository's own binary-aggregation example the
single-dimension roll-up block carries the same `antall` total (300)
as the base table. -/
theorem mass_conservation_witness :
    colSumInt blockYearSex "antall" = colSumInt dfYearSex "antall" :=
  ((mass_conservation dfYearSex ["antall"] "antall" (by decide)
      (by decide)).1 aggSex (by decide) blockYearSex (by rfl)).1

/-- C2 counterexample: on a table with an unrelated label-suffixed
column (`region_navn`, not paired with any dimension of the plan) the
code's grouping columns differ from the spec's rule: the code also
drops `region_navn` from the grouping set. -/
theorem grouping_rule_counterexample :
    singleGroupCols dfLabelOnly ["antall"] aggSex ≠
      specGroupCols dfLabelOnly ["antall"] ["kjønn"] := by decide

/-- C2 amended: the grouping columns are all table columns except the
dimensions of the subset, their resolved label columns, the measure
columns, **and additionally every label-suffixed column** (any column
ending in `.1`, `_fmt`, `_label`, `_navn` or `_name`), whether or not
it is paired with a dimension of the subset. -/
theorem grouping_rule_amended (df : DataFrame) (value_cols : List String) :
    (∀ a : Agg, singleGroupCols df value_cols a =
      specGroupColsAmended df value_cols [a.kolonne]) ∧
    (∀ combo : List Agg, crossGroupCols df value_cols combo =
      specGroupColsAmended df value_cols (combo.map (fun a => a.kolonne))) := by
  constructor
  · intro a
    unfold singleGroupCols groupColsOf specGroupColsAmended
    refine List.filter_congr (fun c _ => ?_)
    rw [Bool.eq_iff_iff]
    unfold singleExclude
    cases hl : find_label_col a.kolonne df.cols <;> simp [hl] <;> tauto
  · intro combo
    unfold crossGroupCols groupColsOf specGroupColsAmended crossExclude
    refine List.filter_congr (fun c _ => ?_)
    rw [Bool.eq_iff_iff]
    simp
    tauto

/-- C3 counterexample: a plan with a *single* descriptor whose roll-up
leaves zero grouping columns does not produce a grand-total row — the
engine raises (pandas `groupby` with no keys), because the
grand-total guard exists only in the cross-combination branch. -/
theorem grand_total_singleton_counterexample :
    apply_aggregeringer dfNoGroup [aggSex] (some ["antall"]) =
      Except.error "ValueError: No group keys passed!" := by rfl

/-- C3 amended: in the cross-combination branch (descriptor subsets of
size ≥ 2 in the engine's enumeration) a roll-up with zero grouping
columns degenerates to exactly one row holding each measure's total
over the whole base table; but in the single-dimension branch a
descriptor whose roll-up leaves zero grouping columns raises instead
of producing a grand-total row. -/
theorem grand_total_amended :
    (∀ (df : DataFrame) (value_cols : List String) (combo : List Agg)
      (M : String),
      crossGroupCols df value_cols combo = [] →
      M ∈ value_cols → is_label_col M = false →
      (∀ a ∈ combo, M ≠ a.kolonne) →
      (∀ x ∈ value_cols, x ∈ df.cols) →
      ∃ res, crossRollup df value_cols combo = .ok res ∧
        res.rows.length = 1 ∧
        ∀ row ∈ res.rows,
          (lookupCell res.cols row M).toInt = colSumInt df M) ∧
    (∀ (df : DataFrame) (value_cols : List String) (a : Agg),
      singleGroupCols df value_cols a = [] →
      singleRollup df value_cols a =
        .error "ValueError: No group keys passed!") := by
  constructor
  · intro df value_cols combo M hgnil hM hMl hMk hv
    have hsf : ∃ base, sumFrame df value_cols = .ok base := by
      unfold sumFrame
      rw [if_neg ?hc]
      · exact ⟨_, rfl⟩
      case hc =>
        intro hany
        obtain ⟨x, hx, hxc⟩ := List.any_eq_true.mp hany
        have : x ∈ df.cols := hv x hx
        simp [this] at hxc
    obtain ⟨base, hb⟩ := hsf
    have hok : crossRollup df value_cols combo =
        .ok (setTotals (fun k => find_label_col k df.cols) base combo) := by
      unfold crossRollup
      dsimp only
      rw [hgnil]
      simpa using congrArg (fun x => match x with
        | Except.error e => Except.error (α := DataFrame) e
        | Except.ok b =>
          Except.ok (setTotals (fun k => find_label_col k df.cols) b combo)) hb
    refine ⟨_, hok, ?_, ?_⟩
    · rw [setTotals_rows_length]
      obtain ⟨-, -, hrows⟩ := sumFrame_ok hb
      rw [hrows]
      have hvne : ¬ value_cols.isEmpty = true := by
        cases value_cols with
        | nil => simp at hM
        | cons x xs => simp
      rw [if_neg hvne]
      rfl
    · intro row hrow
      have hcons := (crossRollup_conserves hM hMl hMk hok).2 row hrow
      rw [hcons, hgnil]
      have hknil : rowKey
          (setTotals (fun k => find_label_col k df.cols) base combo).cols []
          row = [] := rfl
      rw [hknil, groupSum_nil]
  · intro df value_cols a hgnil
    unfold singleRollup
    dsimp only
    rw [hgnil]
    have hge : groupby_agg df [] value_cols =
        .error "ValueError: No group keys passed!" := by
      unfold groupby_agg
      rfl
    rw [hge]

/-- C3 witness: the two-descriptor grand total over `dfSexBydel` is a
single row whose `antall` entry is 700, the total of the base table. -/
theorem grand_total_amended_witness :
    ∃ res, crossRollup dfSexBydel ["antall"] [aggSex, aggBydel] = .ok res ∧
      res.rows.length = 1 ∧
      ∀ row ∈ res.rows,
        (lookupCell res.cols row "antall").toInt =
          colSumInt dfSexBydel "antall" :=
  grand_total_amended.1 dfSexBydel ["antall"] [aggSex, aggBydel] "antall"
    (by decide) (by decide) (by decide) (by decide) (by decide)

/-- C4 counterexample: a descriptor naming the absent column `borte`
does not make the engine raise — it returns a result table in which
`borte` is fabricated: null on the base rows and `total_verdi` (9) on
the roll-up rows. -/
theorem missing_dim_counterexample :
    apply_aggregeringer dfMissingDim [aggBorte] (some ["antall"]) =
      Except.ok
        { cols := ["geo", "antall", "borte"]
          rows := [[Value.num 1, Value.num 10, Value.null],
                   [Value.num 2, Value.num 20, Value.null],
                   [Value.num 1, Value.num 10, Value.num 9],
                   [Value.num 2, Value.num 20, Value.num 9]]
          dtypes := [] } := by rfl

/-- C4 amended: the engine does not fail fast on a missing dimension
column.  Whenever the remaining grouping columns are non-empty and the
measure columns exist, the single-dimension roll-up succeeds and
fabricates the missing column: it appears in the result's columns and
every roll-up row carries `total_verdi` in it. -/
theorem missing_dim_amended (df : DataFrame) (value_cols : List String)
    (a : Agg) (hmiss : a.kolonne ∉ df.cols)
    (hg : singleGroupCols df value_cols a ≠ [])
    (hv : ∀ x ∈ value_cols, x ∈ df.cols) :
    ∃ res, singleRollup df value_cols a = .ok res ∧
      a.kolonne ∈ res.cols ∧
      ∀ row ∈ res.rows,
        lookupCell res.cols row a.kolonne = a.total_verdi := by
  have hgb : ∃ g0, groupby_agg df (singleGroupCols df value_cols a)
      value_cols = .ok g0 := by
    unfold groupby_agg
    rw [if_neg (by simpa [List.isEmpty_iff] using hg), if_neg ?hany]
    · exact ⟨_, rfl⟩
    case hany =>
      intro hany
      obtain ⟨x, hx, hxc⟩ := List.any_eq_true.mp hany
      have hx1 : x ∈ df.cols := hv x hx
      have hx2 : x ∉ singleGroupCols df value_cols a := by
        intro hxg
        have := (mem_groupColsOf.mp hxg).2.1
        exact this (by unfold singleExclude; simp [hx])
      simp [hx1, hx2] at hxc
  obtain ⟨g0, hg0⟩ := hgb
  cases hsr : singleRollup df value_cols a with
  | error e =>
    unfold singleRollup at hsr
    dsimp only at hsr
    rw [hg0] at hsr
    cases hsr
  | ok res =>
    obtain ⟨g1, hg1, hres⟩ := singleRollup_ok_parts hsr
    rw [hg0] at hg1
    injection hg1 with hg1
    subst hg1
    subst hres
    have hWF := groupby_res_WF hg0
    have hndt : ([a].flatMap (fun b => b.kolonne ::
        ((fun k => find_label_col k df.cols) b.kolonne).toList)).Nodup := by
      cases hl : find_label_col a.kolonne df.cols with
      | none => simp [hl]
      | some lbl =>
        simp [hl]
        exact fun he => (find_label_col_some hl).2.1 he.symm
    refine ⟨_, rfl, ?_, ?_⟩
    · have hstep : setTotals (fun k => find_label_col k df.cols) g0 [a] =
          setTotalsStep (fun k => find_label_col k df.cols) g0 a := rfl
      rw [hstep]
      unfold setTotalsStep
      cases hl : find_label_col a.kolonne df.cols with
      | none =>
        simp only [hl]
        exact mem_setCol_cols_self _ _ _
      | some lbl =>
        simp only [hl]
        exact mem_setCol_cols_of _ _ (mem_setCol_cols_self _ _ _)
    · intro row hrow
      exact (setTotals_sets (fun k => find_label_col k df.cols) [a] g0 hWF
        hndt a (List.mem_singleton.mpr rfl) row hrow).1

/-- C4 witness: on `dfMissingDim` with descriptor `aggBorte` the
single-dimension roll-up succeeds and fabricates the `borte` column
with value 9. -/
theorem missing_dim_amended_witness :
    ∃ res, singleRollup dfMissingDim ["antall"] aggBorte = .ok res ∧
      aggBorte.kolonne ∈ res.cols ∧
      ∀ row ∈ res.rows,
        lookupCell res.cols row aggBorte.kolonne = aggBorte.total_verdi :=
  missing_dim_amended dfMissingDim ["antall"] aggBorte (by decide)
    (by decide) (by decide)

/-- C5: Final assembly.  A successful run over a non-empty plan of `N`
descriptors returns the plain concatenation of the base table followed
by exactly `2^N - 1` roll-up blocks, one per non-empty descriptor
subset, ordered by subset size (singles in descriptor order first,
then 2-way combinations in lexicographic position order, and so on up
to the full combination). -/
theorem apply_final_assembly {df : DataFrame} {aggs : List Agg}
    {v : Option (List String)} {F : DataFrame} (hne : aggs ≠ [])
    (h : apply_aggregeringer df aggs v = .ok F) :
    ∃ blocks : List DataFrame,
      F = concatDF (df :: blocks) ∧
      blocks.length = 2 ^ aggs.length - 1 ∧
      List.Forall₂
        (fun S B => rollupOf df (resolveValueCols df aggs v) S = .ok B)
        (specSubsetOrder aggs) blocks := by
  obtain ⟨singles, crosses, hs, hc, rfl⟩ := apply_ok_parts hne h
  have hf1 : List.Forall₂
      (fun S B => rollupOf df (resolveValueCols df aggs v) S = .ok B)
      (aggs.map (fun a => [a])) singles := by
    rw [List.forall₂_map_left_iff]
    exact mapME_ok hs
  have hf2 : List.Forall₂
      (fun S B => rollupOf df (resolveValueCols df aggs v) S = .ok B)
      ((crossSizes aggs.length).flatMap (fun r => combinations r aggs))
      crosses := by
    refine forall₂_imp_mem (mapME_ok hc) (fun S hS B hSB => ?_)
    obtain ⟨r, hr, hSr⟩ := List.mem_flatMap.mp hS
    have hr2 : 2 ≤ r := (List.mem_range'_1.mp hr).1
    rw [rollupOf_of_two (by rw [mem_combinations_length hSr]; exact hr2)]
    exact hSB
  have hf : List.Forall₂
      (fun S B => rollupOf df (resolveValueCols df aggs v) S = .ok B)
      (specSubsetOrder aggs) (singles ++ crosses) := by
    rw [specSubsetOrder_eq hne]
    exact forall₂_append hf1 hf2
  exact ⟨singles ++ crosses, rfl,
    by rw [← hf.length_eq, specSubsetOrder_length], hf⟩

/-- C5 witness: the two-descriptor run over `dfSexBydel` decomposes
into the base table plus `2^2 - 1 = 3` blocks in the spec's subset
order. -/
theorem apply_final_assembly_witness :
    ∃ blocks : List DataFrame,
      dfSexBydelResult = concatDF (dfSexBydel :: blocks) ∧
      blocks.length = 2 ^ ([aggSex, aggBydel] : List Agg).length - 1 ∧
      List.Forall₂
        (fun S B => rollupOf dfSexBydel
          (resolveValueCols dfSexBydel [aggSex, aggBydel]
            (some ["antall"])) S = .ok B)
        (specSubsetOrder [aggSex, aggBydel]) blocks :=
  apply_final_assembly (by decide) (by rfl)

/-- C6: Detector classification.  The classification chain applies the
three positive rules in priority order with first match winning —
binary-total, then geography-rollup, then category-grouping — and
otherwise falls back to a name-based type; and on the spec's two
concrete examples the detector returns exactly one binary-total
finding with new value `Both`, respectively one geography-rollup
finding. -/
theorem detector_classification :
    (∀ (vals_in new_vals vals_out : List String) (col_out : String),
      ((classifyAgg vals_in new_vals vals_out col_out).1 = "binary_total" ↔
        vals_in.length = 2 ∧ new_vals.length = 1) ∧
      ((classifyAgg vals_in new_vals vals_out col_out).1 = "geography_rollup" ↔
        ¬(vals_in.length = 2 ∧ new_vals.length = 1) ∧
        ((∀ v ∈ new_vals, v.length ≤ 3) ∧ (∀ v ∈ vals_in, 3 < v.length))) ∧
      ((classifyAgg vals_in new_vals vals_out col_out).1 = "category_grouping" ↔
        ¬(vals_in.length = 2 ∧ new_vals.length = 1) ∧
        ¬((∀ v ∈ new_vals, v.length ≤ 3) ∧ (∀ v ∈ vals_in, 3 < v.length)) ∧
        (10 < vals_in.length ∧ new_vals.length < 5)) ∧
      (¬(vals_in.length = 2 ∧ new_vals.length = 1) →
       ¬((∀ v ∈ new_vals, v.length ≤ 3) ∧ (∀ v ∈ vals_in, 3 < v.length)) →
       ¬(10 < vals_in.length ∧ new_vals.length < 5) →
       (classifyAgg vals_in new_vals vals_out col_out).1 = "gender" ∨
       (classifyAgg vals_in new_vals vals_out col_out).1 = "geography" ∨
       (classifyAgg vals_in new_vals vals_out col_out).1 = "other")) ∧
    (detect_aggregation_patterns_v2 dfSexIn dfSexOut [("sex", "sex")]).map
      (fun f => (f.type, f.new_values)) = [("binary_total", ["Both"])] ∧
    (detect_aggregation_patterns_v2 dfGeoIn dfGeoOut [("geo", "geo")]).map
      (fun f => f.type) = ["geography_rollup"] := by
  refine ⟨?_, by decide, by decide⟩
  intro vals_in new_vals vals_out col_out
  unfold classifyAgg
  dsimp only
  have hgeo : ((new_vals.all (fun v => v.length ≤ 3) : Bool) = true ∧
      (vals_in.all (fun v => 3 < v.length) : Bool) = true) ↔
      ((∀ v ∈ new_vals, v.length ≤ 3) ∧ (∀ v ∈ vals_in, 3 < v.length)) := by
    simp
  by_cases h1 : vals_in.length = 2 ∧ new_vals.length = 1
  · rw [if_pos h1]
    exact ⟨iff_of_true rfl h1,
      iff_of_false (by decide) (fun hc => hc.1 h1),
      iff_of_false (by decide) (fun hc => hc.1 h1),
      fun hnb _ _ => absurd h1 hnb⟩
  · rw [if_neg h1]
    by_cases h2 : (∀ v ∈ new_vals, v.length ≤ 3) ∧ (∀ v ∈ vals_in, 3 < v.length)
    · rw [if_pos (hgeo.mpr h2)]
      exact ⟨iff_of_false (by decide) (fun hc => h1 hc),
        iff_of_true rfl ⟨h1, h2⟩,
        iff_of_false (by decide) (fun hc => hc.2.1 h2),
        fun _ hng _ => absurd h2 hng⟩
    · rw [if_neg (fun hb => h2 (hgeo.mp hb))]
      by_cases h3 : 10 < vals_in.length ∧ new_vals.length < 5
      · rw [if_pos h3]
        exact ⟨iff_of_false
            (show ("category_grouping" : String) ≠ "binary_total" by decide)
            (fun hc => h1 hc),
          iff_of_false
            (show ("category_grouping" : String) ≠ "geography_rollup" by
              decide)
            (fun hc => h2 hc.2),
          iff_of_true rfl ⟨h1, h2, h3⟩,
          fun _ _ hnc => absurd h3 hnc⟩
      · rw [if_neg h3]
        split_ifs with h4 h5
        · exact ⟨iff_of_false (by decide) (fun hc => h1 hc),
            iff_of_false (by decide) (fun hc => h2 hc.2),
            iff_of_false (by decide) (fun hc => h3 hc.2.2),
            fun _ _ _ => Or.inl rfl⟩
        · exact ⟨iff_of_false (by decide) (fun hc => h1 hc),
            iff_of_false (by decide) (fun hc => h2 hc.2),
            iff_of_false (by decide) (fun hc => h3 hc.2.2),
            fun _ _ _ => Or.inr (Or.inl rfl)⟩
        · exact ⟨iff_of_false
              (show ("other" : String) ≠ "binary_total" by decide)
              (fun hc => h1 hc),
            iff_of_false
              (show ("other" : String) ≠ "geography_rollup" by decide)
              (fun hc => h2 hc.2),
            iff_of_false
              (show ("other" : String) ≠ "category_grouping" by decide)
              (fun hc => h3 hc.2.2),
            fun _ _ _ => Or.inr (Or.inr rfl)⟩

/-- C6 witness: the binary-total rule applied at the spec's concrete
value sets. -/
theorem detector_classification_witness :
    (classifyAgg ["Male", "Female"] ["Both"] ["Male", "Female", "Both"]
      "sex").1 = "binary_total" :=
  ((detector_classification.1 ["Male", "Female"] ["Both"]
    ["Male", "Female", "Both"] "sex").1).mpr (by decide)

theorem foldl_dim_mem (c : String) : ∀ (aggs : List Agg) (acc : List String),
    (c ∈ aggs.foldl (fun acc a => acc ++ [a.kolonne, a.kolonne ++ ".1"]) acc ↔
     c ∈ acc ∨ ∃ a ∈ aggs, c = a.kolonne ∨ c = a.kolonne ++ ".1") := by
  intro aggs
  induction aggs with
  | nil => intro acc; simp
  | cons a as ih =>
    intro acc
    rw [List.foldl_cons, ih]
    simp only [List.mem_append, List.mem_cons, List.mem_singleton,
      List.not_mem_nil, or_false]
    constructor
    · rintro ((h | h | h) | ⟨b, hb, hor⟩)
      · exact Or.inl h
      · exact Or.inr ⟨a, Or.inl rfl, Or.inl h⟩
      · exact Or.inr ⟨a, Or.inl rfl, Or.inr h⟩
      · exact Or.inr ⟨b, Or.inr hb, hor⟩
    · rintro (h | ⟨b, hb, hor⟩)
      · exact Or.inl (Or.inl h)
      · rcases hb with rfl | hb2
        · rcases hor with h | h
          · exact Or.inl (Or.inr (Or.inl h))
          · exact Or.inl (Or.inr (Or.inr h))
        · exact Or.inr ⟨b, hb2, hor⟩

theorem mem_autoDimCols {aggs : List Agg} {c : String} :
    c ∈ autoDimCols aggs ↔
      ∃ a ∈ aggs, c = a.kolonne ∨ c = a.kolonne ++ ".1" := by
  unfold autoDimCols
  simpa using foldl_dim_mem c aggs []

/-- C7: Auto measure-detection.  With `measure_columns` unsupplied, a
column is selected iff it is a table column of numeric dtype that is
neither a descriptor dimension column nor `.1`-suffixed, and either
its lowercased name contains a measure keyword and no dimension
keyword, or it matches neither keyword list and its distinct-value
count exceeds 20% of the row count.  In particular a numeric column
named `antall` that is not itself a rolled-up dimension is always
selected, regardless of cardinality. -/
theorem auto_measure_detection :
    (∀ (df : DataFrame) (aggs : List Agg) (c : String),
      c ∈ autoDetectValueCols df aggs ↔ specMeasureSelected df aggs c) ∧
    (∀ (df : DataFrame) (aggs : List Agg),
      "antall" ∈ df.cols → dtypeOf df "antall" ∈ numericDtypes →
      (∀ a ∈ aggs, "antall" ≠ a.kolonne) →
      "antall" ∈ autoDetectValueCols df aggs) := by
  have hA : ∀ (df : DataFrame) (aggs : List Agg) (c : String),
      c ∈ autoDetectValueCols df aggs ↔ specMeasureSelected df aggs c := by
    intro df aggs c
    unfold autoDetectValueCols specMeasureSelected
    rw [List.mem_filter]
    constructor
    · rintro ⟨hcol, hauto⟩
      unfold isAutoValueCol at hauto
      by_cases hskip : ((autoDimCols aggs).contains c ||
          strEndsWith c ".1") = true
      · rw [if_pos hskip] at hauto; cases hauto
      · rw [if_neg hskip] at hauto
        by_cases hnum : numericDtypes.contains (dtypeOf df c) = true
        · rw [if_pos hnum] at hauto
          dsimp only at hauto
          have hc1 : c ∉ autoDimCols aggs := by
            intro hmem
            exact hskip (by rw [Bool.or_eq_true]; left; simpa using hmem)
          have hE : strEndsWith c ".1" = false := by
            cases hEb : strEndsWith c ".1"
            · rfl
            · exact absurd (by rw [Bool.or_eq_true]; right; exact hEb) hskip
          refine ⟨hcol, by simpa using hnum, ?_, hE, ?_⟩
          · intro a ha he
            exact hc1 (mem_autoDimCols.mpr ⟨a, ha, Or.inl he⟩)
          · by_cases hvk : value_keywords.any
                (fun k => strContains (strLower c) k) = true
            · by_cases hdk : dimension_keywords.any
                  (fun k => strContains (strLower c) k) = true
              · rw [if_neg (by simp [hvk, hdk]), if_pos hdk] at hauto
                cases hauto
              · exact Or.inl ⟨hvk, by simpa using hdk⟩
            · by_cases hdk : dimension_keywords.any
                  (fun k => strContains (strLower c) k) = true
              · rw [if_neg (by simp [hvk]), if_pos hdk] at hauto
                cases hauto
              · rw [if_neg (by simp [hvk]), if_neg hdk] at hauto
                by_cases hcard : 5 * nunique df c > df.rows.length
                · exact Or.inr ⟨by simpa using hvk, by simpa using hdk, hcard⟩
                · rw [if_neg hcard] at hauto; cases hauto
        · rw [if_neg hnum] at hauto; cases hauto
    · rintro ⟨hcol, hnum, hdim, hE, hkw⟩
      refine ⟨hcol, ?_⟩
      unfold isAutoValueCol
      have h1 : (autoDimCols aggs).contains c = false := by
        cases hb : (autoDimCols aggs).contains c
        · rfl
        · exfalso
          have hmem : c ∈ autoDimCols aggs := by simpa using hb
          obtain ⟨a, ha, hor⟩ := mem_autoDimCols.mp hmem
          rcases hor with h | h
          · exact hdim a ha h
          · rw [h, strEndsWith_append] at hE; cases hE
      rw [if_neg (by rw [h1, hE]; decide), if_pos (by simpa using hnum)]
      dsimp only
      rcases hkw with ⟨hvk, hdk⟩ | ⟨hvk, hdk, hcard⟩
      · rw [if_pos (by simp [hvk, hdk])]
      · rw [if_neg (by simp [hvk]), if_neg (by simp [hdk]), if_pos hcard]
  refine ⟨hA, ?_⟩
  intro df aggs h1 h2 h3
  exact (hA df aggs "antall").mpr
    ⟨h1, h2, h3, by decide, Or.inl ⟨by decide, by decide⟩⟩

/-- C7 witness: on the repository's year/sex/count example the numeric
count column `antall` is auto-selected as the only measure column's
member. -/
theorem auto_measure_detection_witness :
    "antall" ∈ autoDetectValueCols dfYearSex [aggSex] :=
  auto_measure_detection.2 dfYearSex [aggSex] (by decide) (by decide)
    (by decide)

/-- C8: Empty-plan identity.  With an empty descriptor list the engine
returns the base table unchanged — same columns, same rows, same row
count.  (The source returns `df_base.copy()`; in this pure embedding
the copy is the table itself, and the input is never mutated because
no operation here mutates.) -/
theorem empty_plan_identity (df : DataFrame) (v : Option (List String)) :
    apply_aggregeringer df [] v = .ok df := rfl

/-- C9: Label consistency.  In every roll-up block — single-dimension
or cross-combination (for combinations whose dimension and label
columns do not collide) — every synthesized row carries the
descriptor's `total_verdi` in its dimension column and, when a label
column resolves for that dimension, the descriptor's `total_label` in
that label column; never any original base value. -/
theorem label_consistency (df : DataFrame) (value_cols : List String) :
    (∀ (a : Agg) (res : DataFrame), singleRollup df value_cols a = .ok res →
      ∀ row ∈ res.rows,
        lookupCell res.cols row a.kolonne = a.total_verdi ∧
        ∀ lbl, find_label_col a.kolonne df.cols = some lbl →
          lookupCell res.cols row lbl = a.total_label) ∧
    (∀ (combo : List Agg) (res : DataFrame), (touched df combo).Nodup →
      crossRollup df value_cols combo = .ok res →
      ∀ a ∈ combo, ∀ row ∈ res.rows,
        lookupCell res.cols row a.kolonne = a.total_verdi ∧
        ∀ lbl, find_label_col a.kolonne df.cols = some lbl →
          lookupCell res.cols row lbl = a.total_label) := by
  constructor
  · intro a res h row hrow
    obtain ⟨g0, hg0, rfl⟩ := singleRollup_ok_parts h
    have hnd : ([a].flatMap (fun b => b.kolonne ::
        ((fun k => find_label_col k df.cols) b.kolonne).toList)).Nodup := by
      cases hl : find_label_col a.kolonne df.cols with
      | none => simp [hl]
      | some lbl =>
        simp [hl]
        exact fun he => (find_label_col_some hl).2.1 he.symm
    exact setTotals_sets (fun k => find_label_col k df.cols) [a] g0
      (groupby_res_WF hg0) hnd a (List.mem_singleton.mpr rfl) row hrow
  · intro combo res hnd h a ha row hrow
    obtain ⟨base, hb, rfl⟩ := crossRollup_ok_parts h
    have hWF : WF base := by
      by_cases hge : (crossGroupCols df value_cols combo).isEmpty
      · rw [if_pos hge] at hb; exact sumFrame_WF hb
      · rw [if_neg hge] at hb; exact groupby_res_WF hb
    exact setTotals_sets (fun k => find_label_col k df.cols) combo base hWF
      hnd a ha row hrow

/-- C9 witness: on `dfLabeled` the synthesized roll-up row carries code
3 in `kjønn` and the total label in `kjønn.1`. -/
theorem label_consistency_witness :
    lookupCell blockLabeled.cols
        [Value.num 2024, Value.num 300, Value.num 3, Value.str "Begge kjønn"]
        "kjønn" = Value.num 3 ∧
    lookupCell blockLabeled.cols
        [Value.num 2024, Value.num 300, Value.num 3, Value.str "Begge kjønn"]
        "kjønn.1" = Value.str "Begge kjønn" := by
  have h := (label_consistency dfLabeled ["antall"]).1 aggSex blockLabeled
    (by rfl)
    [Value.num 2024, Value.num 300, Value.num 3, Value.str "Begge kjønn"]
    (by decide)
  exact ⟨h.1, h.2 "kjønn.1" (by decide)⟩

/-- C10: Single-descriptor wrapper equivalence.
`apply_single_aggregering` wraps its arguments into a one-element plan
and returns exactly what `apply_aggregeringer` returns on it. -/
theorem single_wrapper_equiv (df : DataFrame) (kolonne : String)
    (total_verdi total_label : Value) (v : Option (List String)) :
    apply_single_aggregering df kolonne total_verdi total_label v =
      apply_aggregeringer df
        [{ kolonne := kolonne, total_verdi := total_verdi,
           total_label := total_label }] v := rfl

end FinTablePrep
